import Mathlib

/-!
Shallow embedding of the recursive directory-tree copy engine of
src/lib/copydir.c (copy_tree and its helpers).

Modelling conventions:
- uid_t / gid_t are Nat; the C sentinel (uid_t)-1 is UID_UNSET = 2^32 - 1.
- nlink_t is Nat; the post-decrement of ln_count is modelled modulo 2^64.
- A filesystem location is addressed by its full path string (the C code
  addresses entries as dirfd + name; the full path determines both here).
- The source tree is an inductive value; fstatat on a source entry fails
  exactly on the vanished constructor.
- The destination filesystem is an association list from full path to entry;
  an openat/mkdirat/symlinkat/linkat/mknodat creation call fails when the
  path is already present (EEXIST) and linkat also fails when the link
  target is absent (ENOENT).
- Each simulated call returns an error code (0 or -1, and the literal
  result of the merge branch of copy_dir which returns the C expression
  copy_tree_impl(...) != 0), the destination state, the hardlink registry
  (the C global variable links) and a trace of the attribute-changing
  system calls that were issued, in order.
- read failures on a regular source file are modelled by the readFails
  flag of the node; a failed read leaves the partially written destination
  file in place, as the C code does.
-/

namespace Copydir

/-- The C sentinel (uid_t)-1 on a 32-bit uid_t. -/
def UID_UNSET : Nat := 4294967295

/-- Modulus of nlink_t arithmetic (64-bit unsigned). -/
def NLINK_MOD : Nat := 18446744073709551616

/-- The fields of struct stat that copydir.c reads.  st_mode carries only the
low permission bits (the C 07777 mask); the file type bits of the C st_mode
are determined by the SrcNode constructor. -/
structure StatInfo where
  st_dev : Nat
  st_ino : Nat
  st_nlink : Nat
  st_uid : Nat
  st_gid : Nat
  st_mode : Nat
  st_rdev : Nat
  atim : Nat × Nat
  mtim : Nat × Nat
  deriving Repr, DecidableEq, Inhabited

mutual
/-- A source filesystem entry, as observed by fstatat with
AT_SYMLINK_NOFOLLOW.  The vanished constructor models an entry whose
fstatat probe fails (unreadable or concurrently removed). -/
inductive SrcNode where
  | dir (st : StatInfo) (children : SrcList)
  | symlink (st : StatInfo) (target : String)
  | regular (st : StatInfo) (content : List Nat) (readFails : Bool)
  | special (st : StatInfo)
  | vanished
  deriving Repr

/-- The readdir enumeration of a source directory, in readdir order. -/
inductive SrcList where
  | nil
  | cons (name : String) (node : SrcNode) (rest : SrcList)
  deriving Repr
end

/-- The stat of a non-vanished node. -/
def statOf : SrcNode → StatInfo
  | .dir st _ => st
  | .symlink st _ => st
  | .regular st _ _ => st
  | .special st => st
  | .vanished => default

/-- S_ISDIR on the probed mode. -/
def s_isdir : SrcNode → Bool
  | .dir _ _ => true
  | _ => false

/-- S_ISLNK on the probed mode. -/
def s_islnk : SrcNode → Bool
  | .symlink _ _ => true
  | _ => false

/-- S_ISREG on the probed mode. -/
def s_isreg : SrcNode → Bool
  | .regular _ _ _ => true
  | _ => false

/-- Kind of a destination entry. -/
inductive DstKind where
  | dirD
  | symlinkD (target : String)
  | fileD (content : List Nat) (complete : Bool)
  | specialD (rdev : Nat)
  | hardlinkD (target : String)
  deriving Repr, DecidableEq

/-- Attributes of a destination entry.  mode is none for symlinks (no
fchmodat is ever issued for them); times is none until utimensat runs. -/
structure DstMeta where
  uid : Nat
  gid : Nat
  mode : Option Nat
  times : Option ((Nat × Nat) × (Nat × Nat))
  deriving Repr, DecidableEq

structure DstEntry where
  kind : DstKind
  meta : DstMeta
  deriving Repr, DecidableEq

/-- The destination filesystem: full path to entry, most recent first. -/
abbrev Dst := List (String × DstEntry)

/-- fstatat on the destination side: first entry with the given path. -/
def fsLookup (fs : Dst) (p : String) : Option DstEntry :=
  (fs.find? (fun e => e.1 == p)).map (fun e => e.2)

/-- Is the destination path an existing directory (openat O_DIRECTORY). -/
def dstIsDir (fs : Dst) (p : String) : Bool :=
  match fsLookup fs p with
  | some e => e.kind == DstKind.dirD
  | none => false

/-- utimensat on an existing destination entry. -/
def fsSetTimes (fs : Dst) (p : String) (mt : (Nat × Nat) × (Nat × Nat)) : Dst :=
  fs.map (fun e =>
    if e.1 = p then (e.1, { e.2 with meta := { e.2.meta with times := some mt } }) else e)

/-- One cell of the C linked list of already seen hardlinked inodes
(struct link_name). -/
structure LinkName where
  ln_dev : Nat
  ln_ino : Nat
  ln_count : Nat
  ln_name : String
  deriving Repr, DecidableEq

/-- The attribute-changing system calls the engine issues, in order.  The
trace is the temporal ground truth for ordering claims. -/
inductive Event where
  | mkdirE (path : String) (mode : Nat)
  | chownE (path : String) (uid gid : Nat)
  | chmodE (path : String) (mode : Nat)
  | aclCopyE (path : String)
  | xattrCopyE (path : String)
  | mknodE (path : String) (rdev : Nat)
  | symlinkCreateE (path : String) (target : String)
  | linkCreateE (existing : String) (newPath : String)
  | fileCreateE (path : String) (mode : Nat)
  | writeContentE (path : String) (content : List Nat)
  | utimensE (path : String) (mt : (Nat × Nat) × (Nat × Nat))
  deriving Repr, DecidableEq

/-- The destination path an event creates or mutates. -/
def evPath : Event → String
  | .mkdirE p _ => p
  | .chownE p _ _ => p
  | .chmodE p _ => p
  | .aclCopyE p => p
  | .xattrCopyE p => p
  | .mknodE p _ => p
  | .symlinkCreateE p _ => p
  | .linkCreateE _ p => p
  | .fileCreateE p _ => p
  | .writeContentE p _ => p
  | .utimensE p _ => p

/-- Result of one simulated call: C return value, destination filesystem,
hardlink registry (the C global links), event trace. -/
structure RunRes where
  err : Int
  fs : Dst
  links : List LinkName
  tr : List Event
  deriving Repr, DecidableEq

/-- Parameters threaded through every call of the engine. -/
structure CopyParams where
  reset_selinux : Bool
  old_uid : Nat
  new_uid : Nat
  old_gid : Nat
  new_gid : Nat
  deriving Repr, DecidableEq

/-- The ownership remap computed by the body of def_chown_if_needed and
chownat_if_needed: tmpuid starts at (uid_t)-1, becomes new_id when old_id
is unset or the source id matches old_id, and falls back to the source id
when still unset. -/
def remap_owner (old_id new_id st_id : Nat) : Nat :=
  let tmp := if old_id = UID_UNSET ∨ st_id = old_id then new_id else UID_UNSET
  if tmp = UID_UNSET then st_id else tmp

/-- The (uid, gid) pair passed to fchownat / fchown by chownat_if_needed
and fchown_if_needed. -/
def chown_ids (p : CopyParams) (st : StatInfo) : Nat × Nat :=
  (remap_owner p.old_uid p.new_uid st.st_uid,
   remap_owner p.old_gid p.new_gid st.st_gid)

/-- check_link: scan the registry for the (st_dev, st_ino) pair; on a hit
return the cell and leave the registry unchanged; on a miss return none,
registering a fresh cell (count st_nlink, destination name obtained by
substituting dst_orig for the src_orig path head) unless st_nlink == 1.
Returns (found cell, updated registry). -/
def check_link (links : List LinkName) (src_orig dst_orig : String)
    (name : String) (sb : StatInfo) : Option LinkName × List LinkName :=
  match links.find? (fun lp => lp.ln_dev == sb.st_dev && lp.ln_ino == sb.st_ino) with
  | some lp => (some lp, links)
  | none =>
    if sb.st_nlink == 1 then (none, links)
    else
      let lp : LinkName :=
        { ln_dev := sb.st_dev, ln_ino := sb.st_ino, ln_count := sb.st_nlink,
          ln_name := dst_orig ++ String.drop name src_orig.length }
      (none, lp :: links)

/-- remove_link: delete the cell with the key of lp from the registry
(the C code deletes by node identity; keys are unique in the list because
check_link registers a key only when it is absent). -/
def remove_link : List LinkName → LinkName → List LinkName
  | [], _ => []
  | e :: rest, lp =>
    if e.ln_dev = lp.ln_dev ∧ e.ln_ino = lp.ln_ino then rest
    else e :: remove_link rest lp

/-- copy_hardlink: linkat the recorded destination of the first copy to the
new destination path; only after the link was created, post-decrement the
remaining count (nlink_t arithmetic) and drop the cell when it reached
zero. -/
def copy_hardlink (dstPath : String) (lp : LinkName)
    (links : List LinkName) (fs : Dst) : RunRes :=
  if (fsLookup fs lp.ln_name).isNone ∨ (fsLookup fs dstPath).isSome then
    ⟨-1, fs, links, []⟩
  else
    let c := (lp.ln_count + (NLINK_MOD - 1)) % NLINK_MOD
    let links' :=
      if c = 0 then remove_link links lp
      else links.map (fun e =>
        if e.ln_dev = lp.ln_dev ∧ e.ln_ino = lp.ln_ino then { e with ln_count := c } else e)
    ⟨0, (dstPath, ⟨.hardlinkD lp.ln_name, ⟨0, 0, none, none⟩⟩) :: fs, links',
      [.linkCreateE lp.ln_name dstPath]⟩

/-- The prefix test of the C strprefix helper: character-wise comparison of
the head of the second string against the whole first string. -/
def strIsHeadOf (so t : String) : Bool :=
  so.data.isPrefixOf t.data

/-- copy_symlink: read the target, rewrite a src_orig head to dst_orig
(strprefix), symlinkat, chownat_if_needed, utimensat. -/
def copy_symlink (st : StatInfo) (target : String) (src_orig dst_orig : String)
    (dstPath : String) (links : List LinkName) (fs : Dst)
    (p : CopyParams) (mt : (Nat × Nat) × (Nat × Nat)) : RunRes :=
  if (fsLookup fs dstPath).isSome then ⟨-1, fs, links, []⟩
  else
    let oldlink :=
      if strIsHeadOf src_orig target
      then dst_orig ++ String.drop target src_orig.length
      else target
    let ids := chown_ids p st
    ⟨0, (dstPath, ⟨.symlinkD oldlink, ⟨ids.1, ids.2, none, some mt⟩⟩) :: fs, links,
      [.symlinkCreateE dstPath oldlink, .chownE dstPath ids.1 ids.2, .utimensE dstPath mt]⟩

/-- copy_special: mknodat with the file type and device numbers (permission
bits not embedded), then chownat_if_needed, fchmodat with the 07777 bits,
ACL copy, xattr copy unless reset_selinux, utimensat. -/
def copy_special (st : StatInfo) (dstPath : String)
    (links : List LinkName) (fs : Dst)
    (p : CopyParams) (mt : (Nat × Nat) × (Nat × Nat)) : RunRes :=
  if (fsLookup fs dstPath).isSome then ⟨-1, fs, links, []⟩
  else
    let ids := chown_ids p st
    let m := st.st_mode &&& 4095
    ⟨0, (dstPath, ⟨.specialD st.st_rdev, ⟨ids.1, ids.2, some m, some mt⟩⟩) :: fs, links,
      [.mknodE dstPath st.st_rdev, .chownE dstPath ids.1 ids.2, .chmodE dstPath m,
       .aclCopyE dstPath]
      ++ (if p.reset_selinux then [] else [.xattrCopyE dstPath])
      ++ [.utimensE dstPath mt]⟩

/-- copy_file: openat the source read-only, openat the destination with
O_CREAT|O_EXCL and mode 0600 (fails when the destination exists),
fchown_if_needed, fchmod with the 07777 bits, ACL copy, xattr copy unless
reset_selinux, stream the contents, close, utimensat.  A read failure
leaves the partially written destination file in place and returns -1. -/
def copy_file (st : StatInfo) (content : List Nat) (readFails : Bool)
    (dstPath : String) (links : List LinkName) (fs : Dst)
    (p : CopyParams) (mt : (Nat × Nat) × (Nat × Nat)) : RunRes :=
  if (fsLookup fs dstPath).isSome then ⟨-1, fs, links, []⟩
  else
    let ids := chown_ids p st
    let m := st.st_mode &&& 4095
    let pre : List Event :=
      [.fileCreateE dstPath 384, .chownE dstPath ids.1 ids.2, .chmodE dstPath m,
       .aclCopyE dstPath]
      ++ (if p.reset_selinux then [] else [.xattrCopyE dstPath])
    if readFails then
      ⟨-1, (dstPath, ⟨.fileD [] false, ⟨ids.1, ids.2, some m, none⟩⟩) :: fs, links, pre⟩
    else
      ⟨0, (dstPath, ⟨.fileD content true, ⟨ids.1, ids.2, some m, some mt⟩⟩) :: fs, links,
        pre ++ [.writeContentE dstPath content, .utimensE dstPath mt]⟩

/-- The else-if chain of copy_entry after the directory strategy ran (r1 is
the state it left; for non-directories it is the unchanged input state):
return when the destination now exists, else dispatch to the symlink
strategy, the hardlink strategy on a check_link hit, the special strategy
for non-regular sources, and the regular file strategy.  The arms
returning -1 when the session roots are absent model the C asserts at the
head of check_link and copy_symlink (unreachable from copy_tree). -/
def copy_entry_rest (node : SrcNode) (sb : StatInfo) (r1 : RunRes)
    (srcPath dstPath : String) (sess : Option (String × String))
    (p : CopyParams) (mt : (Nat × Nat) × (Nat × Nat)) : RunRes :=
  if (fsLookup r1.fs dstPath).isSome then r1
  else
    match sess with
    | none => ⟨-1, r1.fs, r1.links, r1.tr⟩
    | some (so, dn) =>
      match node with
      | .symlink st target =>
        let rl := copy_symlink st target so dn dstPath r1.links r1.fs p mt
        ⟨rl.err, rl.fs, rl.links, r1.tr ++ rl.tr⟩
      | _ =>
        match check_link r1.links so dn srcPath sb with
        | (some lp, links2) =>
          let rh := copy_hardlink dstPath lp links2 r1.fs
          ⟨rh.err, rh.fs, rh.links, r1.tr ++ rh.tr⟩
        | (none, links2) =>
          if s_isreg node = false then
            let rs := copy_special sb dstPath links2 r1.fs p mt
            ⟨rs.err, rs.fs, rs.links, r1.tr ++ rs.tr⟩
          else
            match node with
            | .regular st content readFails =>
              let rf := copy_file st content readFails dstPath links2 r1.fs p mt
              ⟨rf.err, rf.fs, rf.links, r1.tr ++ rf.tr⟩
            | _ => ⟨-1, r1.fs, r1.links, r1.tr⟩

mutual

/-- copy_dir: when the destination already is a directory, merge by
recursing without touching its metadata (the merge branch returns the C
expression copy_tree_impl(...) != 0, hence 1 on failure); otherwise
mkdirat with mode 0700, chownat_if_needed, fchmodat with the 07777 bits of
the source mode, ACL copy, xattr copy unless reset_selinux, recurse into
the children, and utimensat last. -/
def copy_dir (st : StatInfo) (cs : SrcList) (srcPath dstPath : String)
    (sess : Option (String × String)) (links : List LinkName)
    (fs : Dst) (p : CopyParams) (mt : (Nat × Nat) × (Nat × Nat)) : RunRes :=
  match fsLookup fs dstPath with
  | some ent =>
    if ent.kind = DstKind.dirD then
      let r := copy_tree_impl (.dir st cs) srcPath dstPath false sess links fs p
      ⟨if r.err = 0 then 0 else 1, r.fs, r.links, r.tr⟩
    else ⟨-1, fs, links, []⟩
  | none =>
    let ids := chown_ids p st
    let m := st.st_mode &&& 4095
    let fs1 : Dst := (dstPath, ⟨.dirD, ⟨ids.1, ids.2, some m, none⟩⟩) :: fs
    let pre : List Event :=
      [.mkdirE dstPath 448, .chownE dstPath ids.1 ids.2, .chmodE dstPath m,
       .aclCopyE dstPath]
      ++ (if p.reset_selinux then [] else [.xattrCopyE dstPath])
    let r := copy_tree_impl (.dir st cs) srcPath dstPath false sess links fs1 p
    if r.err = 0 then
      ⟨0, fsSetTimes r.fs dstPath mt, r.links, pre ++ r.tr ++ [.utimensE dstPath mt]⟩
    else ⟨-1, r.fs, r.links, pre ++ r.tr⟩
termination_by 4 * (1 + sizeOf st + sizeOf cs) + 1

/-- copy_tree_impl.  With copy_root set: fail when the destination exists
or the source probe fails or the source is not a directory, and otherwise
delegate the root entry to copy_entry.  Without copy_root: open both
directories (the source must be a directory and the destination must be an
existing directory), record the session roots when this is the outermost
call, and enumerate the children. -/
def copy_tree_impl (node : SrcNode) (srcPath dstPath : String)
    (copy_root : Bool) (sess : Option (String × String))
    (links : List LinkName) (fs : Dst) (p : CopyParams) : RunRes :=
  match copy_root with
  | true =>
    if (fsLookup fs dstPath).isSome then ⟨-1, fs, links, []⟩
    else
      match node with
      | .dir st cs => copy_entry (.dir st cs) srcPath dstPath sess links fs p
      | .vanished => ⟨-1, fs, links, []⟩
      | _ => ⟨-1, fs, links, []⟩
  | false =>
    match node with
    | .dir _ cs =>
      if dstIsDir fs dstPath then
        let sess' := match sess with
          | none => (srcPath, dstPath)
          | some s => s
        copy_children cs srcPath dstPath sess' links fs p
      else ⟨-1, fs, links, []⟩
    | _ => ⟨-1, fs, links, []⟩
termination_by 4 * sizeOf node + (match copy_root with | true => 3 | false => 0)

/-- The readdir loop of copy_tree_impl: skip "." and "..", build the child
path pair, run copy_entry, stop at the first child whose copy failed and
return its error, keeping the effects of the children already copied. -/
def copy_children (cs : SrcList) (srcPath dstPath : String)
    (sess : String × String) (links : List LinkName)
    (fs : Dst) (p : CopyParams) : RunRes :=
  match cs with
  | .nil => ⟨0, fs, links, []⟩
  | .cons name node rest =>
    if name = "." ∨ name = ".." then
      copy_children rest srcPath dstPath sess links fs p
    else
      let r := copy_entry node (srcPath ++ "/" ++ name) (dstPath ++ "/" ++ name)
                 (some sess) links fs p
      if r.err = 0 then
        let r2 := copy_children rest srcPath dstPath sess r.links r.fs p
        ⟨r2.err, r2.fs, r2.links, r.tr ++ r2.tr⟩
      else r
termination_by 4 * sizeOf cs

/-- copy_entry: probe the source (a failed probe silently succeeds), record
the (atime, mtime) pair, run the directory strategy first for directories,
then run the else-if chain copy_entry_rest on the resulting state. -/
def copy_entry (node : SrcNode) (srcPath dstPath : String)
    (sess : Option (String × String)) (links : List LinkName)
    (fs : Dst) (p : CopyParams) : RunRes :=
  match node with
  | .vanished => ⟨0, fs, links, []⟩
  | .dir st cs =>
    let mt := (st.atim, st.mtim)
    copy_entry_rest (.dir st cs) st
      (copy_dir st cs srcPath dstPath sess links fs p mt)
      srcPath dstPath sess p mt
  | n =>
    let sb := statOf n
    copy_entry_rest n sb ⟨0, fs, links, []⟩ srcPath dstPath sess p (sb.atim, sb.mtim)
termination_by 4 * sizeOf node + 2
decreasing_by all_goals simp_wf

end

/-- copy_tree: the public entry point; both roots are addressed relative to
the current working directory, the session starts unset.  The hardlink
registry is the C global links, passed explicitly here. -/
def copy_tree (node : SrcNode) (src_root dst_root : String)
    (copy_root reset_selinux : Bool)
    (old_uid new_uid old_gid new_gid : Nat)
    (links : List LinkName) (fs : Dst) : RunRes :=
  copy_tree_impl node src_root dst_root copy_root none links fs
    ⟨reset_selinux, old_uid, new_uid, old_gid, new_gid⟩

/-! Helper lemmas on the destination map and on strings. -/

theorem str_append_left_cancel {s a b : String} (h : s ++ a = s ++ b) : a = b := by
  have h2 : (s ++ a).data = (s ++ b).data := congrArg String.data h
  rw [String.data_append, String.data_append] at h2
  exact String.ext (List.append_cancel_left h2)

theorem str_drop_append (a b : String) : String.drop (a ++ b) a.length = b := by
  cases a with | mk ad =>
  cases b with | mk bd =>
  simp [String.drop_eq, String.ext_iff, String.data_append, String.length]

theorem fsLookup_cons (a : String) (e : DstEntry) (fs : Dst) (q : String) :
    fsLookup ((a, e) :: fs) q = if a = q then some e else fsLookup fs q := by
  by_cases h : a = q
  · subst h; simp [fsLookup, List.find?_cons]
  · simp [fsLookup, List.find?_cons, h]

theorem fsLookup_cons_self (q : String) (e : DstEntry) (fs : Dst) :
    fsLookup ((q, e) :: fs) q = some e := by
  simp [fsLookup_cons]

theorem fsLookup_cons_ne {q q' : String} (h : q' ≠ q) (e : DstEntry) (fs : Dst) :
    fsLookup ((q', e) :: fs) q = fsLookup fs q := by
  simp [fsLookup_cons, h]

theorem fsLookup_cons_isSome {q : String} {fs : Dst} (h : (fsLookup fs q).isSome)
    (q' : String) (e : DstEntry) : (fsLookup ((q', e) :: fs) q).isSome := by
  by_cases hq : q' = q
  · subst hq; simp [fsLookup_cons_self]
  · rwa [fsLookup_cons_ne hq]

theorem fsSetTimes_lookup (fs : Dst) (pp q : String) (mt : (Nat × Nat) × (Nat × Nat)) :
    fsLookup (fsSetTimes fs pp mt) q =
      if q = pp
      then (fsLookup fs q).map (fun e => { e with meta := { e.meta with times := some mt } })
      else fsLookup fs q := by
  induction fs with
  | nil => simp [fsSetTimes, fsLookup]
  | cons hd tl ih =>
    obtain ⟨a, e⟩ := hd
    simp only [fsSetTimes, List.map_cons] at ih ⊢
    by_cases haq : a = q
    · subst haq
      by_cases hap : a = pp
      · subst hap
        simp [fsLookup_cons, ih]
      · have hqp : ¬ a = pp := hap
        simp [fsLookup_cons, ih, hqp]
    · by_cases hap : a = pp
      · subst hap
        have hqp : ¬ q = a := fun h => haq h.symm
        simp [fsLookup_cons, ih, haq, hqp]
      · simp [fsLookup_cons, ih, hap, haq]

theorem fsSetTimes_lookup_isSome (fs : Dst) (pp q : String) (mt : (Nat × Nat) × (Nat × Nat)) :
    (fsLookup (fsSetTimes fs pp mt) q).isSome = (fsLookup fs q).isSome := by
  rw [fsSetTimes_lookup]
  by_cases h : q = pp <;> simp [h]

/-! Claim C4: the ownership remap law. -/

/-- Claim C4, counterexample: the biconditional form of the remap law fails.
With old_uid = 5 (set), new_uid = 3 (set) and source owner u = 3, the
condition (old_uid unset or u = old_uid) is false, so by the claim the
resulting owner should differ from new_uid; but the resulting owner is the
kept source owner u = 3, which happens to equal new_uid. -/
theorem c4_remap_iff_cex :
    ¬ ((remap_owner 5 3 3 = 3) ↔ ((5 = UID_UNSET ∨ 3 = 5) ∧ 3 ≠ UID_UNSET)) := by
  decide

/-- Claim C4 (amended): for every entry with source owner u, the resulting
owner equals new_uid if (old_uid is unset or u = old_uid) and new_uid is
set, and otherwise equals u (the only-if direction of the original claim
fails when new_uid coincides with the kept source owner).  The identical
rule applies independently to the group id, since chownat_if_needed and
fchown_if_needed compute both ids with this same function. -/
theorem c4_remap_amended (old_id new_id st_id : Nat) :
    remap_owner old_id new_id st_id =
      if (old_id = UID_UNSET ∨ st_id = old_id) ∧ new_id ≠ UID_UNSET
      then new_id else st_id := by
  unfold remap_owner
  by_cases h1 : old_id = UID_UNSET ∨ st_id = old_id <;>
    by_cases h2 : new_id = UID_UNSET <;>
      simp [h1, h2]

/-! Claim C8: the check_link lookup/registration contract. -/

/-- Claim C8, counterexample: a (device, inode) pair not in the registry
with link count 0 (allowed by the unsigned nlink_t and by the claim, which
covers all link_count <= 1): the code tests st_nlink == 1 only, so the
pair is registered (with remaining count 0) even though the claim says
nothing is registered for link_count <= 1. -/
theorem c8_check_link_cex :
    (check_link [] "s" "d" "s/x" ⟨7, 9, 0, 0, 0, 420, 0, (0, 0), (0, 0)⟩).1 = none
    ∧ (check_link [] "s" "d" "s/x" ⟨7, 9, 0, 0, 0, 420, 0, (0, 0), (0, 0)⟩).2 ≠ [] := by
  decide

/-- Claim C8 (amended): check_link on a pair already in the registry
returns the recorded cell (with its destination path) and leaves the
registry unchanged; on a missing pair with link_count exactly 1 it returns
nothing and registers nothing; on a missing pair with link_count different
from 1 (for a stat-ed file this means link_count > 1, but the code tests
st_nlink == 1, so link_count 0 also registers) it registers a new cell
keyed by (device, inode) with remaining count equal to link_count and the
destination path obtained by substituting the destination root for the
source root, and returns nothing. -/
theorem c8_check_link_amended (links : List LinkName) (so dn nm : String) (sb : StatInfo) :
    (∀ lp, links.find? (fun e => e.ln_dev == sb.st_dev && e.ln_ino == sb.st_ino) = some lp →
        check_link links so dn nm sb = (some lp, links))
  ∧ (links.find? (fun e => e.ln_dev == sb.st_dev && e.ln_ino == sb.st_ino) = none →
      sb.st_nlink = 1 →
        check_link links so dn nm sb = (none, links))
  ∧ (links.find? (fun e => e.ln_dev == sb.st_dev && e.ln_ino == sb.st_ino) = none →
      sb.st_nlink ≠ 1 →
        check_link links so dn nm sb =
          (none, ⟨sb.st_dev, sb.st_ino, sb.st_nlink,
                  dn ++ String.drop nm so.length⟩ :: links)) := by
  refine ⟨fun lp hf => ?_, fun hf h1 => ?_, fun hf h1 => ?_⟩
  · simp [check_link, hf]
  · simp [check_link, hf, h1]
  · simp [check_link, hf, h1]

/-- Claim C8, witness: instantiation of the registration case of
c8_check_link_amended at an empty registry and link count 2. -/
theorem c8_check_link_amended_witness :
    check_link [] "s" "d" "s/x" ⟨7, 9, 2, 0, 0, 420, 0, (0, 0), (0, 0)⟩ =
      (none, [⟨7, 9, 2, "d" ++ String.drop "s/x" "s".length⟩]) :=
  (c8_check_link_amended [] "s" "d" "s/x" ⟨7, 9, 2, 0, 0, 420, 0, (0, 0), (0, 0)⟩).2.2
    (by decide) (by decide)

/-! Claim C10: the registry is untouched when linkat fails, and the
decrement happens only after the hardlink was created. -/

/-- Claim C10: when the hardlink strategy fails to create the destination
link (the recorded path is gone or the destination exists), the whole
state, in particular the registry cell for the (device, inode), is left
unchanged and -1 is returned; the count is decremented (modulo the
unsigned nlink_t width) and the cell removed exactly when it reaches zero,
only on the success path, after the link was created. -/
theorem c10_registry_on_link_failure (dstPath : String) (lp : LinkName)
    (links : List LinkName) (fs : Dst) :
    (((fsLookup fs lp.ln_name).isNone ∨ (fsLookup fs dstPath).isSome) →
        copy_hardlink dstPath lp links fs = ⟨-1, fs, links, []⟩)
  ∧ ((fsLookup fs lp.ln_name).isSome → fsLookup fs dstPath = none →
      0 < lp.ln_count → lp.ln_count < NLINK_MOD →
        copy_hardlink dstPath lp links fs =
          ⟨0, (dstPath, ⟨.hardlinkD lp.ln_name, ⟨0, 0, none, none⟩⟩) :: fs,
            (if lp.ln_count = 1 then remove_link links lp
             else links.map (fun e =>
               if e.ln_dev = lp.ln_dev ∧ e.ln_ino = lp.ln_ino
               then { e with ln_count := lp.ln_count - 1 } else e)),
            [.linkCreateE lp.ln_name dstPath]⟩) := by
  constructor
  · intro h
    simp only [copy_hardlink, if_pos h]
  · intro h1 h2 h3 h4
    have hd : ¬ ((fsLookup fs lp.ln_name).isNone ∨ (fsLookup fs dstPath).isSome) := by
      rintro (hA | hB)
      · rw [Option.isNone_iff_eq_none] at hA
        rw [hA] at h1
        exact absurd h1 (by simp)
      · rw [h2] at hB
        exact absurd hB (by simp)
    have hmod : (lp.ln_count + (NLINK_MOD - 1)) % NLINK_MOD = lp.ln_count - 1 := by
      have : lp.ln_count + (NLINK_MOD - 1) = (lp.ln_count - 1) + 1 * NLINK_MOD := by omega
      rw [this, Nat.add_mul_mod_self_right]
      exact Nat.mod_eq_of_lt (by omega)
    simp only [copy_hardlink, if_neg hd, hmod]
    have hz : lp.ln_count - 1 = 0 ↔ lp.ln_count = 1 := by omega
    by_cases hc : lp.ln_count = 1
    · simp [hc]
    · simp [hz, hc]

/-- Claim C10, witness: a concrete failing linkat (the recorded destination
path is absent from the destination filesystem) leaves the registry cell
with its count, and a concrete successful linkat decrements it. -/
theorem c10_registry_on_link_failure_witness :
    copy_hardlink "d/b" ⟨7, 9, 2, "d/a"⟩ [⟨7, 9, 2, "d/a"⟩] [] =
      ⟨-1, [], [⟨7, 9, 2, "d/a"⟩], []⟩ :=
  (c10_registry_on_link_failure "d/b" ⟨7, 9, 2, "d/a"⟩ [⟨7, 9, 2, "d/a"⟩] []).1
    (by decide)

/-! Claim C6: symlink target rewriting against the session roots. -/

/-- Claim C6: an entry dispatched as a symbolic link (destination absent)
is created with its target rewritten when the target begins with the
session source root (the matching head replaced by the session destination
root), and verbatim otherwise; the registry is not consulted. -/
theorem c6_symlink_rewrite (st : StatInfo) (target so dn sp dp : String)
    (links : List LinkName) (fs : Dst) (p : CopyParams)
    (h : fsLookup fs dp = none) :
    (copy_entry (.symlink st target) sp dp (some (so, dn)) links fs p).err = 0
    ∧ ((fsLookup (copy_entry (.symlink st target) sp dp (some (so, dn)) links fs p).fs dp).map
          (fun e => e.kind) =
        some (.symlinkD (if strIsHeadOf so target
                         then dn ++ String.drop target so.length
                         else target)))
    ∧ (copy_entry (.symlink st target) sp dp (some (so, dn)) links fs p).links = links := by
  have hs : (fsLookup fs dp).isSome = false := by simp [h]
  have e1 : copy_entry (.symlink st target) sp dp (some (so, dn)) links fs p
      = copy_symlink st target so dn dp links fs p (st.atim, st.mtim) := by
    simp only [copy_entry, copy_entry_rest, statOf]
    simp [hs]
  rw [e1]
  simp only [copy_symlink, hs]
  simp only [Bool.false_eq_true, if_false]
  simp [fsLookup_cons_self]

/-- Fixture stat records and parameter records for the concrete witnesses
and counterexamples. -/
def stReg : StatInfo := ⟨7, 11, 1, 100, 100, 420, 0, (1, 2), (3, 4)⟩

def stLn : StatInfo := ⟨7, 12, 1, 100, 100, 511, 0, (1, 2), (3, 4)⟩

def stHl : StatInfo := ⟨7, 9, 2, 100, 100, 420, 0, (1, 2), (3, 4)⟩

def stDirW : StatInfo := ⟨7, 2, 3, 0, 0, 493, 0, (5, 6), (7, 8)⟩

def stDirRO : StatInfo := ⟨7, 3, 2, 0, 0, 320, 0, (5, 6), (7, 8)⟩

def pRemap : CopyParams := ⟨false, UID_UNSET, 1001, UID_UNSET, 1001⟩

def dRoot : Dst := [("d", ⟨.dirD, ⟨0, 0, some 448, none⟩⟩)]

/-- Claim C6, witness: a link with target s/bin under session roots
(s, d) is rewritten to d/bin. -/
theorem c6_symlink_rewrite_witness :
    (copy_entry (.symlink stLn "s/bin") "s/l" "d/l" (some ("s", "d")) [] [] pRemap).err = 0
    ∧ ((fsLookup (copy_entry (.symlink stLn "s/bin") "s/l" "d/l" (some ("s", "d")) [] [] pRemap).fs
          "d/l").map (fun e => e.kind) = some (.symlinkD "d/bin")) := by
  have h := c6_symlink_rewrite stLn "s/bin" "s" "d" "s/l" "d/l" [] [] pRemap (by decide)
  refine ⟨h.1, ?_⟩
  rw [h.2.1]
  decide

/-! Monotonicity of the destination map: the engine never removes a
destination entry.  Needed to track the directory entry through the
recursive population of its children. -/

theorem copy_symlink_fs_mono {fs : Dst} {q : String} (h : (fsLookup fs q).isSome)
    (st : StatInfo) (target so dn dp : String) (links : List LinkName)
    (p : CopyParams) (mt : (Nat × Nat) × (Nat × Nat)) :
    (fsLookup (copy_symlink st target so dn dp links fs p mt).fs q).isSome := by
  unfold copy_symlink
  by_cases hc : (fsLookup fs dp).isSome = true
  · rw [if_pos hc]; exact h
  · rw [if_neg hc]; exact fsLookup_cons_isSome h _ _

theorem copy_hardlink_fs_mono {fs : Dst} {q : String} (h : (fsLookup fs q).isSome)
    (dp : String) (lp : LinkName) (links : List LinkName) :
    (fsLookup (copy_hardlink dp lp links fs).fs q).isSome := by
  unfold copy_hardlink
  by_cases hc : (fsLookup fs lp.ln_name).isNone ∨ (fsLookup fs dp).isSome
  · rw [if_pos hc]; exact h
  · rw [if_neg hc]; exact fsLookup_cons_isSome h _ _

theorem copy_special_fs_mono {fs : Dst} {q : String} (h : (fsLookup fs q).isSome)
    (st : StatInfo) (dp : String) (links : List LinkName)
    (p : CopyParams) (mt : (Nat × Nat) × (Nat × Nat)) :
    (fsLookup (copy_special st dp links fs p mt).fs q).isSome := by
  unfold copy_special
  by_cases hc : (fsLookup fs dp).isSome = true
  · rw [if_pos hc]; exact h
  · rw [if_neg hc]; exact fsLookup_cons_isSome h _ _

theorem copy_file_fs_mono {fs : Dst} {q : String} (h : (fsLookup fs q).isSome)
    (st : StatInfo) (content : List Nat) (readFails : Bool) (dp : String)
    (links : List LinkName) (p : CopyParams) (mt : (Nat × Nat) × (Nat × Nat)) :
    (fsLookup (copy_file st content readFails dp links fs p mt).fs q).isSome := by
  unfold copy_file
  by_cases hc : (fsLookup fs dp).isSome = true
  · rw [if_pos hc]; exact h
  · rw [if_neg hc]
    by_cases hr : readFails = true
    · rw [if_pos hr]; exact fsLookup_cons_isSome h _ _
    · rw [if_neg hr]; exact fsLookup_cons_isSome h _ _

theorem copy_entry_rest_fs_mono {r1 : RunRes} {q : String}
    (h : (fsLookup r1.fs q).isSome) (node : SrcNode) (sb : StatInfo)
    (sp dp : String) (sess : Option (String × String)) (p : CopyParams)
    (mt : (Nat × Nat) × (Nat × Nat)) :
    (fsLookup (copy_entry_rest node sb r1 sp dp sess p mt).fs q).isSome := by
  unfold copy_entry_rest
  by_cases hc : (fsLookup r1.fs dp).isSome = true
  · rw [if_pos hc]; exact h
  · rw [if_neg hc]
    cases sess with
    | none => exact h
    | some pr =>
      obtain ⟨so, dn⟩ := pr
      cases node with
      | symlink st target =>
        dsimp only
        exact copy_symlink_fs_mono h st target so dn dp r1.links p mt
      | dir st cs =>
        dsimp only
        rcases hck : check_link r1.links so dn sp sb with ⟨fnd, links2⟩
        cases fnd with
        | some lp => simpa using copy_hardlink_fs_mono h dp lp links2
        | none => simpa [s_isreg] using copy_special_fs_mono h sb dp links2 p mt
      | special st =>
        dsimp only
        rcases hck : check_link r1.links so dn sp sb with ⟨fnd, links2⟩
        cases fnd with
        | some lp => simpa using copy_hardlink_fs_mono h dp lp links2
        | none => simpa [s_isreg] using copy_special_fs_mono h sb dp links2 p mt
      | vanished =>
        dsimp only
        rcases hck : check_link r1.links so dn sp sb with ⟨fnd, links2⟩
        cases fnd with
        | some lp => simpa using copy_hardlink_fs_mono h dp lp links2
        | none => simpa [s_isreg] using copy_special_fs_mono h sb dp links2 p mt
      | regular st content readFails =>
        dsimp only
        rcases hck : check_link r1.links so dn sp sb with ⟨fnd, links2⟩
        cases fnd with
        | some lp => simpa using copy_hardlink_fs_mono h dp lp links2
        | none =>
          simpa [s_isreg] using copy_file_fs_mono h st content readFails dp links2 p mt

mutual

theorem copy_dir_fs_mono (st : StatInfo) (cs : SrcList) (sp dp : String)
    (sess : Option (String × String)) (links : List LinkName) (fs : Dst)
    (p : CopyParams) (mt : (Nat × Nat) × (Nat × Nat)) {q : String}
    (h : (fsLookup fs q).isSome) :
    (fsLookup (copy_dir st cs sp dp sess links fs p mt).fs q).isSome := by
  simp only [copy_dir]
  rcases hdl : fsLookup fs dp with _ | ent
  · dsimp only
    by_cases he : (copy_tree_impl (.dir st cs) sp dp false sess links
        ((dp, ⟨.dirD, ⟨(chown_ids p st).1, (chown_ids p st).2,
          some (st.st_mode &&& 4095), none⟩⟩) :: fs) p).err = 0
    · rw [if_pos he]
      dsimp only
      rw [fsSetTimes_lookup_isSome]
      exact copy_tree_impl_fs_mono (.dir st cs) sp dp false sess links _ p
        (fsLookup_cons_isSome h _ _)
    · rw [if_neg he]
      exact copy_tree_impl_fs_mono (.dir st cs) sp dp false sess links _ p
        (fsLookup_cons_isSome h _ _)
  · dsimp only
    by_cases hk : ent.kind = DstKind.dirD
    · rw [if_pos hk]
      exact copy_tree_impl_fs_mono (.dir st cs) sp dp false sess links fs p h
    · rw [if_neg hk]
      exact h
termination_by 4 * (1 + sizeOf st + sizeOf cs) + 1

theorem copy_tree_impl_fs_mono (node : SrcNode) (sp dp : String) (copy_root : Bool)
    (sess : Option (String × String)) (links : List LinkName) (fs : Dst)
    (p : CopyParams) {q : String} (h : (fsLookup fs q).isSome) :
    (fsLookup (copy_tree_impl node sp dp copy_root sess links fs p).fs q).isSome := by
  cases copy_root
  · cases node with
    | dir st cs =>
      rw [copy_tree_impl.eq_def]; dsimp only
      by_cases hd : dstIsDir fs dp = true
      · rw [if_pos hd]
        exact copy_children_fs_mono cs sp dp _ links fs p h
      · rw [if_neg hd]
        exact h
    | symlink st target => rw [copy_tree_impl.eq_def]; dsimp only; exact h
    | regular st content readFails => rw [copy_tree_impl.eq_def]; dsimp only; exact h
    | special st => rw [copy_tree_impl.eq_def]; dsimp only; exact h
    | vanished => rw [copy_tree_impl.eq_def]; dsimp only; exact h
  · cases node with
    | dir st cs =>
      rw [copy_tree_impl.eq_def]; dsimp only
      by_cases hd : (fsLookup fs dp).isSome = true
      · rw [if_pos hd]; exact h
      · rw [if_neg hd]
        exact copy_entry_fs_mono (.dir st cs) sp dp sess links fs p h
    | symlink st target =>
      rw [copy_tree_impl.eq_def]; dsimp only
      by_cases hd : (fsLookup fs dp).isSome = true
      · rw [if_pos hd]; exact h
      · rw [if_neg hd]; exact h
    | regular st content readFails =>
      rw [copy_tree_impl.eq_def]; dsimp only
      by_cases hd : (fsLookup fs dp).isSome = true
      · rw [if_pos hd]; exact h
      · rw [if_neg hd]; exact h
    | special st =>
      rw [copy_tree_impl.eq_def]; dsimp only
      by_cases hd : (fsLookup fs dp).isSome = true
      · rw [if_pos hd]; exact h
      · rw [if_neg hd]; exact h
    | vanished =>
      rw [copy_tree_impl.eq_def]; dsimp only
      by_cases hd : (fsLookup fs dp).isSome = true
      · rw [if_pos hd]; exact h
      · rw [if_neg hd]; exact h
termination_by 4 * sizeOf node + (match copy_root with | true => 3 | false => 0)

theorem copy_children_fs_mono (cs : SrcList) (sp dp : String)
    (sess : String × String) (links : List LinkName) (fs : Dst)
    (p : CopyParams) {q : String} (h : (fsLookup fs q).isSome) :
    (fsLookup (copy_children cs sp dp sess links fs p).fs q).isSome := by
  cases cs with
  | nil => simpa only [copy_children] using h
  | cons name node rest =>
    simp only [copy_children]
    by_cases hn : name = "." ∨ name = ".."
    · rw [if_pos hn]
      exact copy_children_fs_mono rest sp dp sess links fs p h
    · rw [if_neg hn]
      try dsimp only
      by_cases he : (copy_entry node (sp ++ "/" ++ name) (dp ++ "/" ++ name)
          (some sess) links fs p).err = 0
      · rw [if_pos he]
        try dsimp only
        exact copy_children_fs_mono rest sp dp sess _ _ p
          (copy_entry_fs_mono node _ _ (some sess) links fs p h)
      · rw [if_neg he]
        exact copy_entry_fs_mono node _ _ (some sess) links fs p h
termination_by 4 * sizeOf cs

theorem copy_entry_fs_mono (node : SrcNode) (sp dp : String)
    (sess : Option (String × String)) (links : List LinkName) (fs : Dst)
    (p : CopyParams) {q : String} (h : (fsLookup fs q).isSome) :
    (fsLookup (copy_entry node sp dp sess links fs p).fs q).isSome := by
  cases node with
  | vanished => simpa only [copy_entry] using h
  | dir st cs =>
    simp only [copy_entry]
    exact copy_entry_rest_fs_mono
      (copy_dir_fs_mono st cs sp dp sess links fs p (st.atim, st.mtim) h) _ _ sp dp sess p _
  | symlink st target =>
    simp only [copy_entry]
    exact copy_entry_rest_fs_mono h _ _ sp dp sess p _
  | regular st content readFails =>
    simp only [copy_entry]
    exact copy_entry_rest_fs_mono h _ _ sp dp sess p _
  | special st =>
    simp only [copy_entry]
    exact copy_entry_rest_fs_mono h _ _ sp dp sess p _
termination_by 4 * sizeOf node + 2

end

/-- The recorded (atime, mtime) of a destination entry. -/
def timesAt (fs : Dst) (q : String) : Option ((Nat × Nat) × (Nat × Nat)) :=
  match fsLookup fs q with
  | some e => e.meta.times
  | none => none

theorem getLast?_append_pair (l : List Event) (a b : Event) :
    (l ++ [a, b]).getLast? = some b := by
  have h : l ++ [a, b] = (l ++ [a]) ++ [b] := by simp
  rw [h, List.getLast?_concat]

/-! Claim C7: timestamps are applied last, with the values captured from
the source probe. -/

/-- Claim C7: for each per-type strategy that creates a destination entry
(regular file without read failure, symlink, special file, directory at a
not-yet-existing destination), a successful run records exactly the
(atime, mtime) pair captured from the source probe on the destination,
and the final event of the strategy trace is the utimensat call with that
pair, so it follows every chown/chmod/ACL/xattr application of the
strategy. -/
theorem c7_timestamps_last :
    (∀ (st : StatInfo) (content : List Nat) (dp : String) (links : List LinkName)
       (fs : Dst) (p : CopyParams) (mt : (Nat × Nat) × (Nat × Nat)),
       fsLookup fs dp = none →
         (copy_file st content false dp links fs p mt).err = 0
         ∧ timesAt (copy_file st content false dp links fs p mt).fs dp = some mt
         ∧ (copy_file st content false dp links fs p mt).tr.getLast?
             = some (.utimensE dp mt))
  ∧ (∀ (st : StatInfo) (target so dn dp : String) (links : List LinkName)
       (fs : Dst) (p : CopyParams) (mt : (Nat × Nat) × (Nat × Nat)),
       fsLookup fs dp = none →
         (copy_symlink st target so dn dp links fs p mt).err = 0
         ∧ timesAt (copy_symlink st target so dn dp links fs p mt).fs dp = some mt
         ∧ (copy_symlink st target so dn dp links fs p mt).tr.getLast?
             = some (.utimensE dp mt))
  ∧ (∀ (st : StatInfo) (dp : String) (links : List LinkName)
       (fs : Dst) (p : CopyParams) (mt : (Nat × Nat) × (Nat × Nat)),
       fsLookup fs dp = none →
         (copy_special st dp links fs p mt).err = 0
         ∧ timesAt (copy_special st dp links fs p mt).fs dp = some mt
         ∧ (copy_special st dp links fs p mt).tr.getLast? = some (.utimensE dp mt))
  ∧ (∀ (st : StatInfo) (cs : SrcList) (sp dp : String)
       (sess : Option (String × String)) (links : List LinkName)
       (fs : Dst) (p : CopyParams) (mt : (Nat × Nat) × (Nat × Nat)),
       fsLookup fs dp = none →
       (copy_dir st cs sp dp sess links fs p mt).err = 0 →
         timesAt (copy_dir st cs sp dp sess links fs p mt).fs dp = some mt
         ∧ (copy_dir st cs sp dp sess links fs p mt).tr.getLast?
             = some (.utimensE dp mt)) := by
  refine ⟨?_, ?_, ?_, ?_⟩
  · intro st content dp links fs p mt hnone
    have hs : ¬ (fsLookup fs dp).isSome = true := by simp [hnone]
    unfold copy_file
    rw [if_neg hs]
    dsimp only
    refine ⟨rfl, ?_, ?_⟩
    · simp [timesAt, fsLookup_cons_self]
    · exact getLast?_append_pair _ _ _
  · intro st target so dn dp links fs p mt hnone
    have hs : ¬ (fsLookup fs dp).isSome = true := by simp [hnone]
    unfold copy_symlink
    rw [if_neg hs]
    dsimp only
    refine ⟨rfl, ?_, ?_⟩
    · simp [timesAt, fsLookup_cons_self]
    · rfl
  · intro st dp links fs p mt hnone
    have hs : ¬ (fsLookup fs dp).isSome = true := by simp [hnone]
    unfold copy_special
    rw [if_neg hs]
    dsimp only
    refine ⟨rfl, ?_, ?_⟩
    · simp [timesAt, fsLookup_cons_self]
    · rw [List.getLast?_concat]
  · intro st cs sp dp sess links fs p mt hnone hsucc
    rw [copy_dir.eq_def] at hsucc ⊢
    rw [hnone] at hsucc ⊢
    dsimp only at hsucc ⊢
    by_cases he : (copy_tree_impl (.dir st cs) sp dp false sess links
        ((dp, ⟨.dirD, ⟨(chown_ids p st).1, (chown_ids p st).2,
          some (st.st_mode &&& 4095), none⟩⟩) :: fs) p).err = 0
    · rw [if_pos he] at hsucc ⊢
      dsimp only
      constructor
      · have hsome : (fsLookup (copy_tree_impl (.dir st cs) sp dp false sess links
            ((dp, ⟨.dirD, ⟨(chown_ids p st).1, (chown_ids p st).2,
              some (st.st_mode &&& 4095), none⟩⟩) :: fs) p).fs dp).isSome :=
          copy_tree_impl_fs_mono (.dir st cs) sp dp false sess links _ p
            (by rw [fsLookup_cons_self]; rfl)
        obtain ⟨e, he2⟩ := Option.isSome_iff_exists.mp hsome
        simp [timesAt, fsSetTimes_lookup, he2]
      · have ha : ∀ (l1 l2 : List Event) (u : Event),
            (l1 ++ l2 ++ [u]).getLast? = some u := by
          intro l1 l2 u
          rw [List.append_assoc, ← List.append_assoc, List.getLast?_concat]
        exact ha _ _ _
    · rw [if_neg he] at hsucc
      exact absurd hsucc (by norm_num)

/-- Claim C7, witness: the regular file strategy at a concrete input. -/
theorem c7_timestamps_last_witness :
    (copy_file stReg [1, 2] false "d/f" [] [] pRemap ((1, 2), (3, 4))).err = 0
    ∧ timesAt (copy_file stReg [1, 2] false "d/f" [] [] pRemap ((1, 2), (3, 4))).fs "d/f"
        = some ((1, 2), (3, 4))
    ∧ (copy_file stReg [1, 2] false "d/f" [] [] pRemap ((1, 2), (3, 4))).tr.getLast?
        = some (.utimensE "d/f" ((1, 2), (3, 4))) :=
  c7_timestamps_last.1 stReg [1, 2] "d/f" [] [] pRemap ((1, 2), (3, 4)) (by decide)

/-! Claim C5: the dispatch order of copy_entry. -/

/-- Claim C5: the entry dispatcher evaluates in this fixed order: a failed
source probe silently succeeds doing nothing; a directory source runs the
directory strategy first and, when the destination exists afterwards, its
result is returned unchanged; a non-directory entry whose destination
already exists is skipped with success and no effect (never overwritten);
otherwise a symlink source goes to the symlink strategy, a check_link hit
to the hardlink strategy (with the registry as updated by check_link), a
non-regular source to the special strategy and a regular source to the
regular file strategy. -/
theorem c5_dispatch_order (node : SrcNode) (sp dp : String)
    (sess : Option (String × String)) (links : List LinkName) (fs : Dst)
    (p : CopyParams) :
    (node = .vanished → copy_entry node sp dp sess links fs p = ⟨0, fs, links, []⟩)
  ∧ (∀ st cs, node = .dir st cs →
      (fsLookup (copy_dir st cs sp dp sess links fs p (st.atim, st.mtim)).fs dp).isSome →
        copy_entry node sp dp sess links fs p
          = copy_dir st cs sp dp sess links fs p (st.atim, st.mtim))
  ∧ (s_isdir node = false → node ≠ .vanished → (fsLookup fs dp).isSome →
        copy_entry node sp dp sess links fs p = ⟨0, fs, links, []⟩)
  ∧ (∀ st target so dn, node = .symlink st target → sess = some (so, dn) →
      fsLookup fs dp = none →
        copy_entry node sp dp sess links fs p
          = copy_symlink st target so dn dp links fs p (st.atim, st.mtim))
  ∧ (∀ so dn lp links2, node ≠ .vanished → s_isdir node = false →
      s_islnk node = false → sess = some (so, dn) → fsLookup fs dp = none →
      check_link links so dn sp (statOf node) = (some lp, links2) →
        copy_entry node sp dp sess links fs p = copy_hardlink dp lp links2 fs)
  ∧ (∀ st so dn links2, node = .special st →
      sess = some (so, dn) → fsLookup fs dp = none →
      check_link links so dn sp st = (none, links2) →
        copy_entry node sp dp sess links fs p
          = copy_special st dp links2 fs p (st.atim, st.mtim))
  ∧ (∀ st content readFails so dn links2, node = .regular st content readFails →
      sess = some (so, dn) → fsLookup fs dp = none →
      check_link links so dn sp st = (none, links2) →
        copy_entry node sp dp sess links fs p
          = copy_file st content readFails dp links2 fs p (st.atim, st.mtim)) := by
  refine ⟨?_, ?_, ?_, ?_, ?_, ?_, ?_⟩
  · rintro rfl
    simp only [copy_entry]
  · rintro st cs rfl hsome
    simp only [copy_entry, copy_entry_rest]
    rw [if_pos hsome]
  · intro hnd hnv hsome
    cases node with
    | vanished => exact absurd rfl hnv
    | dir st cs => simp [s_isdir] at hnd
    | symlink st target =>
      simp only [copy_entry, copy_entry_rest, statOf]
      rw [if_pos hsome]
    | regular st content readFails =>
      simp only [copy_entry, copy_entry_rest, statOf]
      rw [if_pos hsome]
    | special st =>
      simp only [copy_entry, copy_entry_rest, statOf]
      rw [if_pos hsome]
  · rintro st target so dn rfl rfl hnone
    have hs : ¬ (fsLookup fs dp).isSome = true := by simp [hnone]
    simp only [copy_entry, copy_entry_rest, statOf]
    rw [if_neg hs]
    rfl
  · intro so dn lp links2 hnv hnd hnl hsess hnone hck
    subst hsess
    have hs : ¬ (fsLookup fs dp).isSome = true := by simp [hnone]
    cases node with
    | vanished => exact absurd rfl hnv
    | dir st cs => simp [s_isdir] at hnd
    | symlink st target => simp [s_islnk] at hnl
    | regular st content readFails =>
      simp only [statOf] at hck
      simp only [copy_entry, copy_entry_rest, statOf]
      rw [if_neg hs]
      try dsimp only
      rw [hck]
      rfl
    | special st =>
      simp only [statOf] at hck
      simp only [copy_entry, copy_entry_rest, statOf]
      rw [if_neg hs]
      try dsimp only
      rw [hck]
      rfl
  · rintro st so dn links2 rfl rfl hnone hck
    have hs : ¬ (fsLookup fs dp).isSome = true := by simp [hnone]
    simp only [copy_entry, copy_entry_rest, statOf]
    rw [if_neg hs]
    try dsimp only
    rw [hck]
    simp [s_isreg]
  · rintro st content readFails so dn links2 rfl rfl hnone hck
    have hs : ¬ (fsLookup fs dp).isSome = true := by simp [hnone]
    simp only [copy_entry, copy_entry_rest, statOf]
    rw [if_neg hs]
    try dsimp only
    rw [hck]
    simp [s_isreg]

/-- Claim C5, witness: the failed-probe case and the existing-destination
case at concrete inputs. -/
theorem c5_dispatch_order_witness :
    copy_entry .vanished "s/x" "d/x" none [] dRoot pRemap = ⟨0, dRoot, [], []⟩
    ∧ copy_entry (.regular stReg [1] false) "s" "d" none [] dRoot pRemap
        = ⟨0, dRoot, [], []⟩ :=
  ⟨(c5_dispatch_order .vanished "s/x" "d/x" none [] dRoot pRemap).1 rfl,
   (c5_dispatch_order (.regular stReg [1] false) "s" "d" none [] dRoot pRemap).2.2.1
     (by decide) (by intro h; cases h) (by decide)⟩

/-! Claim C2: copy_root_only semantics. -/

/-- Claim C2, counterexample: a top-level call with copy_root set on a
source directory with one regular child f succeeds and creates the child
f below the destination root: the call does not copy only the root entry,
it descends into the children (the directory strategy invoked through
copy_entry always recurses). -/
theorem c2_descends_cex :
    (copy_tree (.dir stDirW (.cons "f" (.regular stReg [5] false) .nil)) "s" "d"
        true false UID_UNSET UID_UNSET UID_UNSET UID_UNSET [] []).err = 0
    ∧ ((fsLookup (copy_tree (.dir stDirW (.cons "f" (.regular stReg [5] false) .nil)) "s" "d"
        true false UID_UNSET UID_UNSET UID_UNSET UID_UNSET [] []).fs "d/f").map
          (fun e => e.kind) = some (.fileD [5] true)) := by
  constructor <;>
    simp +decide [copy_tree, copy_tree_impl, copy_children, copy_entry, copy_entry_rest,
      copy_dir, copy_file, check_link, fsLookup, dstIsDir, fsSetTimes, chown_ids,
      remap_owner, stDirW, stReg, UID_UNSET, statOf, s_isreg]

/-- Claim C2 (amended): with copy_root_only set, the call fails when the
destination already exists or when the source probe fails or the source is
not a directory; otherwise it hands the root entry to the entry
dispatcher, whose directory strategy creates the root and then descends
into the children of the source directory (copy_root_only does not
suppress the descent; it makes the call create the destination root
itself instead of requiring it to exist). -/
theorem c2_copy_root_amended (node : SrcNode) (sp dp : String)
    (sess : Option (String × String)) (links : List LinkName) (fs : Dst)
    (p : CopyParams) :
    ((fsLookup fs dp).isSome →
        copy_tree_impl node sp dp true sess links fs p = ⟨-1, fs, links, []⟩)
  ∧ (fsLookup fs dp = none → s_isdir node = false →
        copy_tree_impl node sp dp true sess links fs p = ⟨-1, fs, links, []⟩)
  ∧ (∀ st cs, fsLookup fs dp = none → node = .dir st cs →
        copy_tree_impl node sp dp true sess links fs p
          = copy_entry (.dir st cs) sp dp sess links fs p) := by
  refine ⟨?_, ?_, ?_⟩
  · intro hsome
    rw [copy_tree_impl.eq_def]
    dsimp only
    rw [if_pos hsome]
  · intro hnone hnd
    have hs : ¬ (fsLookup fs dp).isSome = true := by simp [hnone]
    rw [copy_tree_impl.eq_def]
    dsimp only
    rw [if_neg hs]
    cases node with
    | dir st cs => simp [s_isdir] at hnd
    | symlink st target => rfl
    | regular st content readFails => rfl
    | special st => rfl
    | vanished => rfl
  · rintro st cs hnone rfl
    have hs : ¬ (fsLookup fs dp).isSome = true := by simp [hnone]
    rw [copy_tree_impl.eq_def]
    dsimp only
    rw [if_neg hs]

/-- Claim C2, witness: the destination-exists failure and the delegation
case at concrete inputs. -/
theorem c2_copy_root_amended_witness :
    copy_tree_impl (.dir stDirW .nil) "s" "d" true none [] dRoot pRemap
        = ⟨-1, dRoot, [], []⟩
    ∧ copy_tree_impl (.dir stDirW .nil) "s" "d2" true none [] [] pRemap
        = copy_entry (.dir stDirW .nil) "s" "d2" none [] [] pRemap :=
  ⟨(c2_copy_root_amended (.dir stDirW .nil) "s" "d" none [] dRoot pRemap).1 (by decide),
   (c2_copy_root_amended (.dir stDirW .nil) "s" "d2" none [] [] pRemap).2.2 stDirW .nil
     (by decide) rfl⟩

/-! Claim C3: the directory strategy at a not-yet-existing destination,
and the mode the directory carries while its children are populated. -/

/-- The mode update an event applies to the entry at a given path. -/
def modeStep (pq : String) (acc : Option Nat) : Event → Option Nat
  | .mkdirE q m => if q = pq then some m else acc
  | .chmodE q m => if q = pq then some m else acc
  | .fileCreateE q m => if q = pq then some m else acc
  | _ => acc

/-- The mode bits the entry at a path carries after a trace ran. -/
def modeAt (tr : List Event) (pq : String) : Option Nat :=
  tr.foldl (modeStep pq) none

theorem modeStep_skip {e : Event} {pq : String} (h : evPath e ≠ pq)
    (acc : Option Nat) : modeStep pq acc e = acc := by
  cases e <;> simp_all [modeStep, evPath]

theorem foldl_modeStep_skip (b : List Event) (pq : String)
    (h : ∀ e ∈ b, evPath e ≠ pq) (acc : Option Nat) :
    List.foldl (modeStep pq) acc b = acc := by
  induction b generalizing acc with
  | nil => rfl
  | cons e rest ih =>
    rw [List.foldl_cons, modeStep_skip (h e (by simp)) acc]
    exact ih (fun x hx => h x (by simp [hx])) acc

/-- The destination entry copy_dir creates before populating a fresh
directory (mkdirat 0700, chown, chmod to the masked source mode). -/
def mkdirEntry (p : CopyParams) (st : StatInfo) : DstEntry :=
  ⟨.dirD, ⟨(chown_ids p st).1, (chown_ids p st).2, some (st.st_mode &&& 4095), none⟩⟩

/-- The events copy_dir issues on a fresh destination directory before
recursing into the children. -/
def dirPreTrace (p : CopyParams) (st : StatInfo) (dp : String) : List Event :=
  [.mkdirE dp 448, .chownE dp (chown_ids p st).1 (chown_ids p st).2,
   .chmodE dp (st.st_mode &&& 4095), .aclCopyE dp]
  ++ (if p.reset_selinux then [] else [.xattrCopyE dp])

/-! Every event of a strategy call concerns the destination path of that
call or a path below it; a (non-root) tree walk below a directory only
touches strictly longer paths.  This is what keeps the mode of a directory
unchanged while its children are populated. -/

theorem copy_symlink_tr_paths (st : StatInfo) (target so dn dp : String)
    (links : List LinkName) (fs : Dst) (p : CopyParams)
    (mt : (Nat × Nat) × (Nat × Nat)) :
    ∀ e ∈ (copy_symlink st target so dn dp links fs p mt).tr, evPath e = dp := by
  unfold copy_symlink
  by_cases hc : (fsLookup fs dp).isSome = true
  · rw [if_pos hc]; intro e he; simp at he
  · rw [if_neg hc]; intro e he
    dsimp only at he
    simp only [List.mem_cons, List.not_mem_nil, or_false] at he
    rcases he with rfl | rfl | rfl <;> rfl

theorem copy_hardlink_tr_paths (dp : String) (lp : LinkName)
    (links : List LinkName) (fs : Dst) :
    ∀ e ∈ (copy_hardlink dp lp links fs).tr, evPath e = dp := by
  unfold copy_hardlink
  by_cases hc : (fsLookup fs lp.ln_name).isNone ∨ (fsLookup fs dp).isSome
  · rw [if_pos hc]; intro e he; simp at he
  · rw [if_neg hc]; intro e he
    dsimp only at he
    simp only [List.mem_cons, List.not_mem_nil, or_false] at he
    subst he; rfl

theorem copy_special_tr_paths (st : StatInfo) (dp : String)
    (links : List LinkName) (fs : Dst) (p : CopyParams)
    (mt : (Nat × Nat) × (Nat × Nat)) :
    ∀ e ∈ (copy_special st dp links fs p mt).tr, evPath e = dp := by
  unfold copy_special
  by_cases hc : (fsLookup fs dp).isSome = true
  · rw [if_pos hc]; intro e he; simp at he
  · rw [if_neg hc]; intro e he
    dsimp only at he
    by_cases hrs : p.reset_selinux = true
    · rw [if_pos hrs] at he
      simp only [List.cons_append, List.nil_append, List.append_nil,
        List.append_assoc] at he
      fin_cases he <;> rfl
    · rw [if_neg hrs] at he
      simp only [List.cons_append, List.nil_append, List.append_nil,
        List.append_assoc] at he
      fin_cases he <;> rfl

theorem copy_file_tr_paths (st : StatInfo) (content : List Nat) (readFails : Bool)
    (dp : String) (links : List LinkName) (fs : Dst) (p : CopyParams)
    (mt : (Nat × Nat) × (Nat × Nat)) :
    ∀ e ∈ (copy_file st content readFails dp links fs p mt).tr, evPath e = dp := by
  unfold copy_file
  by_cases hc : (fsLookup fs dp).isSome = true
  · rw [if_pos hc]; intro e he; simp at he
  · rw [if_neg hc]
    by_cases hr : readFails = true
    · rw [if_pos hr]
      intro e he
      dsimp only at he
      by_cases hrs : p.reset_selinux = true
      · rw [if_pos hrs] at he
        simp only [List.cons_append, List.nil_append, List.append_nil,
          List.append_assoc] at he
        fin_cases he <;> rfl
      · rw [if_neg hrs] at he
        simp only [List.cons_append, List.nil_append, List.append_nil,
          List.append_assoc] at he
        fin_cases he <;> rfl
    · rw [if_neg hr]
      intro e he
      dsimp only at he
      by_cases hrs : p.reset_selinux = true
      · rw [if_pos hrs] at he
        simp only [List.cons_append, List.nil_append, List.append_nil,
          List.append_assoc] at he
        fin_cases he <;> rfl
      · rw [if_neg hrs] at he
        simp only [List.cons_append, List.nil_append, List.append_nil,
          List.append_assoc] at he
        fin_cases he <;> rfl

theorem copy_entry_rest_tr_paths (node : SrcNode) (sb : StatInfo) (r1 : RunRes)
    (sp dp : String) (sess : Option (String × String)) (p : CopyParams)
    (mt : (Nat × Nat) × (Nat × Nat)) :
    ∀ e ∈ (copy_entry_rest node sb r1 sp dp sess p mt).tr,
      e ∈ r1.tr ∨ evPath e = dp := by
  unfold copy_entry_rest
  by_cases hc : (fsLookup r1.fs dp).isSome = true
  · rw [if_pos hc]; intro e he; exact Or.inl he
  · rw [if_neg hc]
    cases sess with
    | none => intro e he; exact Or.inl he
    | some pr =>
      obtain ⟨so, dn⟩ := pr
      have hck : ∀ (links2 : List LinkName) (fnd : Option LinkName),
          check_link r1.links so dn sp sb = (fnd, links2) → True := fun _ _ _ => trivial
      cases node with
      | symlink st target =>
        dsimp only
        intro e he
        rw [List.mem_append] at he
        rcases he with h | h
        · exact Or.inl h
        · exact Or.inr (copy_symlink_tr_paths st target so dn dp r1.links r1.fs p mt e h)
      | dir st cs =>
        dsimp only
        rcases hc2 : check_link r1.links so dn sp sb with ⟨fnd, links2⟩
        cases fnd with
        | some lp =>
          intro e he
          simp only [List.mem_append] at he
          rcases he with h | h
          · exact Or.inl h
          · exact Or.inr (copy_hardlink_tr_paths dp lp links2 r1.fs e h)
        | none =>
          intro e he
          dsimp only at he
          rw [if_pos (by rfl)] at he
          try dsimp only at he
          simp only [List.mem_append] at he
          rcases he with h | h
          · exact Or.inl h
          · exact Or.inr (copy_special_tr_paths sb dp links2 r1.fs p mt e h)
      | special st =>
        dsimp only
        rcases hc2 : check_link r1.links so dn sp sb with ⟨fnd, links2⟩
        cases fnd with
        | some lp =>
          intro e he
          simp only [List.mem_append] at he
          rcases he with h | h
          · exact Or.inl h
          · exact Or.inr (copy_hardlink_tr_paths dp lp links2 r1.fs e h)
        | none =>
          intro e he
          dsimp only at he
          rw [if_pos (by rfl)] at he
          try dsimp only at he
          simp only [List.mem_append] at he
          rcases he with h | h
          · exact Or.inl h
          · exact Or.inr (copy_special_tr_paths sb dp links2 r1.fs p mt e h)
      | vanished =>
        dsimp only
        rcases hc2 : check_link r1.links so dn sp sb with ⟨fnd, links2⟩
        cases fnd with
        | some lp =>
          intro e he
          simp only [List.mem_append] at he
          rcases he with h | h
          · exact Or.inl h
          · exact Or.inr (copy_hardlink_tr_paths dp lp links2 r1.fs e h)
        | none =>
          intro e he
          dsimp only at he
          rw [if_pos (by rfl)] at he
          try dsimp only at he
          simp only [List.mem_append] at he
          rcases he with h | h
          · exact Or.inl h
          · exact Or.inr (copy_special_tr_paths sb dp links2 r1.fs p mt e h)
      | regular st content readFails =>
        dsimp only
        rcases hc2 : check_link r1.links so dn sp sb with ⟨fnd, links2⟩
        cases fnd with
        | some lp =>
          intro e he
          simp only [List.mem_append] at he
          rcases he with h | h
          · exact Or.inl h
          · exact Or.inr (copy_hardlink_tr_paths dp lp links2 r1.fs e h)
        | none =>
          intro e he
          dsimp only at he
          rw [if_neg (by simp [s_isreg])] at he
          try dsimp only at he
          simp only [List.mem_append] at he
          rcases he with h | h
          · exact Or.inl h
          · exact Or.inr (copy_file_tr_paths st content readFails dp links2 r1.fs p mt e h)

mutual

theorem copy_dir_tr_below (st : StatInfo) (cs : SrcList) (sp dp : String)
    (sess : Option (String × String)) (links : List LinkName) (fs : Dst)
    (p : CopyParams) (mt : (Nat × Nat) × (Nat × Nat)) :
    ∀ e ∈ (copy_dir st cs sp dp sess links fs p mt).tr,
      dp.length ≤ (evPath e).length := by
  simp only [copy_dir]
  rcases hdl : fsLookup fs dp with _ | ent
  · dsimp only
    by_cases he0 : (copy_tree_impl (.dir st cs) sp dp false sess links
        ((dp, ⟨.dirD, ⟨(chown_ids p st).1, (chown_ids p st).2,
          some (st.st_mode &&& 4095), none⟩⟩) :: fs) p).err = 0
    · rw [if_pos he0]
      intro e he
      dsimp only at he
      rw [List.append_assoc, List.append_assoc, List.mem_append] at he
      rcases he with h | h
      · fin_cases h <;> exact le_refl _
      · rw [List.mem_append] at h
        rcases h with h | h
        · by_cases hrs : p.reset_selinux = true
          · rw [if_pos hrs] at h
            simp at h
          · rw [if_neg hrs] at h
            fin_cases h <;> exact le_refl _
        · rw [List.mem_append] at h
          rcases h with h | h
          · exact le_of_lt (copy_tree_impl_tr_below (.dir st cs) sp dp sess links _ p e h)
          · simp only [List.mem_cons, List.not_mem_nil, or_false] at h
            subst h
            exact le_refl _
    · rw [if_neg he0]
      intro e he
      dsimp only at he
      rw [List.append_assoc, List.mem_append] at he
      rcases he with h | h
      · fin_cases h <;> exact le_refl _
      · rw [List.mem_append] at h
        rcases h with h | h
        · by_cases hrs : p.reset_selinux = true
          · rw [if_pos hrs] at h
            simp at h
          · rw [if_neg hrs] at h
            fin_cases h <;> exact le_refl _
        · exact le_of_lt (copy_tree_impl_tr_below (.dir st cs) sp dp sess links _ p e h)
  · dsimp only
    by_cases hk : ent.kind = DstKind.dirD
    · rw [if_pos hk]
      intro e he
      dsimp only at he
      exact le_of_lt (copy_tree_impl_tr_below (.dir st cs) sp dp sess links fs p e he)
    · rw [if_neg hk]
      intro e he
      simp at he
termination_by 4 * (1 + sizeOf st + sizeOf cs) + 1

theorem copy_tree_impl_tr_below (node : SrcNode) (sp dp : String)
    (sess : Option (String × String)) (links : List LinkName) (fs : Dst)
    (p : CopyParams) :
    ∀ e ∈ (copy_tree_impl node sp dp false sess links fs p).tr,
      dp.length < (evPath e).length := by
  cases node with
  | dir st cs =>
    rw [copy_tree_impl.eq_def]; dsimp only
    by_cases hd : dstIsDir fs dp = true
    · rw [if_pos hd]
      exact copy_children_tr_below cs sp dp _ links fs p
    · rw [if_neg hd]
      intro e he; simp at he
  | symlink st target =>
    rw [copy_tree_impl.eq_def]; dsimp only
    intro e he; simp at he
  | regular st content readFails =>
    rw [copy_tree_impl.eq_def]; dsimp only
    intro e he; simp at he
  | special st =>
    rw [copy_tree_impl.eq_def]; dsimp only
    intro e he; simp at he
  | vanished =>
    rw [copy_tree_impl.eq_def]; dsimp only
    intro e he; simp at he
termination_by 4 * sizeOf node

theorem copy_children_tr_below (cs : SrcList) (sp dp : String)
    (sess : String × String) (links : List LinkName) (fs : Dst)
    (p : CopyParams) :
    ∀ e ∈ (copy_children cs sp dp sess links fs p).tr,
      dp.length < (evPath e).length := by
  cases cs with
  | nil =>
    simp only [copy_children]
    intro e he; simp at he
  | cons name node rest =>
    simp only [copy_children]
    by_cases hn : name = "." ∨ name = ".."
    · rw [if_pos hn]
      exact copy_children_tr_below rest sp dp sess links fs p
    · rw [if_neg hn]
      try dsimp only
      have hlen : dp.length < (dp ++ "/" ++ name).length := by
        rw [String.length_append, String.length_append]
        have h1 : ("/" : String).length = 1 := rfl
        omega
      by_cases he0 : (copy_entry node (sp ++ "/" ++ name) (dp ++ "/" ++ name)
          (some sess) links fs p).err = 0
      · rw [if_pos he0]
        intro e he
        try dsimp only at he
        rw [List.mem_append] at he
        rcases he with h | h
        · have := copy_entry_tr_below node (sp ++ "/" ++ name) (dp ++ "/" ++ name)
            (some sess) links fs p e h
          omega
        · exact copy_children_tr_below rest sp dp sess _ _ p e h
      · rw [if_neg he0]
        intro e he
        have := copy_entry_tr_below node (sp ++ "/" ++ name) (dp ++ "/" ++ name)
          (some sess) links fs p e he
        omega
termination_by 4 * sizeOf cs

theorem copy_entry_tr_below (node : SrcNode) (sp dp : String)
    (sess : Option (String × String)) (links : List LinkName) (fs : Dst)
    (p : CopyParams) :
    ∀ e ∈ (copy_entry node sp dp sess links fs p).tr,
      dp.length ≤ (evPath e).length := by
  cases node with
  | vanished =>
    simp only [copy_entry]
    intro e he; simp at he
  | dir st cs =>
    simp only [copy_entry]
    intro e he
    rcases copy_entry_rest_tr_paths (.dir st cs) st
        (copy_dir st cs sp dp sess links fs p (st.atim, st.mtim))
        sp dp sess p (st.atim, st.mtim) e he with h | h
    · exact copy_dir_tr_below st cs sp dp sess links fs p (st.atim, st.mtim) e h
    · rw [h]
  | symlink st target =>
    simp only [copy_entry]
    intro e he
    rcases copy_entry_rest_tr_paths (.symlink st target) st ⟨0, fs, links, []⟩
        sp dp sess p (st.atim, st.mtim) e he with h | h
    · simp at h
    · rw [h]
  | regular st content readFails =>
    simp only [copy_entry]
    intro e he
    rcases copy_entry_rest_tr_paths (.regular st content readFails) st ⟨0, fs, links, []⟩
        sp dp sess p (st.atim, st.mtim) e he with h | h
    · simp at h
    · rw [h]
  | special st =>
    simp only [copy_entry]
    intro e he
    rcases copy_entry_rest_tr_paths (.special st) st ⟨0, fs, links, []⟩
        sp dp sess p (st.atim, st.mtim) e he with h | h
    · simp at h
    · rw [h]
termination_by 4 * sizeOf node + 2

end

/-- Fixture: a copy_tree run with a subdirectory whose source mode is 0500
(no owner-write bit) containing one regular file. -/
def treeC3 : SrcNode :=
  .dir stDirW (.cons "sub" (.dir stDirRO (.cons "f" (.regular stReg [5] false) .nil)) .nil)

/-- Claim C3, counterexample: the directory d/sub is chmod-ed to the source
mode 0500 before its child is copied: at the moment the child f is created
(event index 5 of the run), the mode recorded for d/sub by the preceding
trace is 0500, whose owner-write bit (0200) is clear — the destination
directory is NOT writable by its owner throughout the population of its
children. -/
theorem c3_not_writable_cex :
    (copy_tree treeC3 "s" "d" false false UID_UNSET 1001 UID_UNSET 1001 [] dRoot).tr.get? 5
      = some (.fileCreateE "d/sub/f" 384)
    ∧ modeAt ((copy_tree treeC3 "s" "d" false false UID_UNSET 1001 UID_UNSET 1001
          [] dRoot).tr.take 5) "d/sub" = some 320
    ∧ 320 &&& 128 = 0 := by
  refine ⟨?_, ?_, by decide⟩ <;>
    simp +decide [copy_tree, copy_tree_impl, copy_children, copy_entry, copy_entry_rest,
      copy_dir, copy_file, check_link, fsLookup, dstIsDir, fsSetTimes, chown_ids,
      remap_owner, treeC3, stDirW, stDirRO, stReg, dRoot, UID_UNSET, statOf, s_isreg,
      modeAt, modeStep]

/-- Claim C3 (amended): on a not-yet-existing destination the directory
strategy issues, in order: mkdirat with mode 0700, chown, chmod to the
masked source mode, ACL copy, xattr copy (unless labels are stripped),
then the recursive copy of the children, then utimensat last (only when
the recursion succeeded).  Because the chmod to the source mode precedes
the recursion, throughout the population of the children the directory
carries the SOURCE mode bits (mode & 07777), not a guaranteed
owner-writable mode: for every prefix of the recursion trace, the mode
recorded for the directory is the masked source mode (the recursion never
touches the directory itself, only strictly longer paths). -/
theorem c3_dir_strategy_amended (st : StatInfo) (cs : SrcList) (sp dp : String)
    (sess : Option (String × String)) (links : List LinkName) (fs : Dst)
    (p : CopyParams) (mt : (Nat × Nat) × (Nat × Nat))
    (hnone : fsLookup fs dp = none) :
    ((copy_dir st cs sp dp sess links fs p mt).tr
        = dirPreTrace p st dp
          ++ (copy_tree_impl (.dir st cs) sp dp false sess links
                ((dp, mkdirEntry p st) :: fs) p).tr
          ++ (if (copy_tree_impl (.dir st cs) sp dp false sess links
                ((dp, mkdirEntry p st) :: fs) p).err = 0
              then [.utimensE dp mt] else []))
  ∧ (∀ t1 t2,
      (copy_tree_impl (.dir st cs) sp dp false sess links
          ((dp, mkdirEntry p st) :: fs) p).tr = t1 ++ t2 →
        modeAt (dirPreTrace p st dp ++ t1) dp = some (st.st_mode &&& 4095)) := by
  constructor
  · rw [copy_dir.eq_def, hnone]
    dsimp only
    simp only [dirPreTrace, mkdirEntry]
    by_cases he0 : (copy_tree_impl (.dir st cs) sp dp false sess links
        ((dp, ⟨.dirD, ⟨(chown_ids p st).1, (chown_ids p st).2,
          some (st.st_mode &&& 4095), none⟩⟩) :: fs) p).err = 0
    · simp [he0]
    · simp [he0]
  · intro t1 t2 ht
    have hall : ∀ e ∈ t1, evPath e ≠ dp := by
      intro e he hq
      have hmem : e ∈ (copy_tree_impl (.dir st cs) sp dp false sess links
          ((dp, mkdirEntry p st) :: fs) p).tr := by
        rw [ht]; exact List.mem_append_left _ he
      have hlt := copy_tree_impl_tr_below (.dir st cs) sp dp sess links
        ((dp, mkdirEntry p st) :: fs) p e hmem
      rw [hq] at hlt
      omega
    unfold modeAt
    rw [List.foldl_append]
    rw [foldl_modeStep_skip t1 dp hall]
    by_cases hrs : p.reset_selinux = true <;>
      simp [dirPreTrace, modeStep, hrs]

/-- Claim C3, witness: instantiation of the amended directory strategy at
a concrete read-only source directory, with the empty prefix of the
recursion trace. -/
theorem c3_dir_strategy_amended_witness :
    modeAt (dirPreTrace pRemap stDirRO "d/sub" ++ []) "d/sub"
      = some (stDirRO.st_mode &&& 4095) :=
  (c3_dir_strategy_amended stDirRO (.cons "f" (.regular stReg [5] false) .nil)
      "s/sub" "d/sub" (some ("s", "d")) [] [] pRemap ((5, 6), (7, 8)) (by decide)).2
    [] (copy_tree_impl (.dir stDirRO (.cons "f" (.regular stReg [5] false) .nil))
        "s/sub" "d/sub" false (some ("s", "d")) []
        (("d/sub", mkdirEntry pRemap stDirRO) :: []) pRemap).tr
    (List.nil_append _).symm

/-! Claim C9: the first failing child aborts the enumeration. -/

/-- Concatenation of readdir enumerations. -/
def slAppend : SrcList → SrcList → SrcList
  | .nil, l => l
  | .cons n nd r, l => .cons n nd (slAppend r l)

/-- Claim C9: if the children before a given entry are all copied
successfully and the copy of that entry fails, then the enumeration of the
directory returns exactly the error of the failing entry (propagated
unchanged), with the destination state and registry as the failing entry
left them — the effects of the earlier siblings are kept (no rollback)
and the entries after the failing one (cs2, arbitrary) are never
processed: the result does not depend on them. -/
theorem c9_first_error_aborts (cs1 : SrcList) (name : String) (node : SrcNode)
    (cs2 : SrcList) (sp dp : String) (sess : String × String)
    (links : List LinkName) (fs : Dst) (p : CopyParams)
    (h1 : (copy_children cs1 sp dp sess links fs p).err = 0)
    (hname : ¬ (name = "." ∨ name = ".."))
    (hbad : (copy_entry node (sp ++ "/" ++ name) (dp ++ "/" ++ name) (some sess)
        (copy_children cs1 sp dp sess links fs p).links
        (copy_children cs1 sp dp sess links fs p).fs p).err ≠ 0) :
    copy_children (slAppend cs1 (.cons name node cs2)) sp dp sess links fs p
      = ⟨(copy_entry node (sp ++ "/" ++ name) (dp ++ "/" ++ name) (some sess)
            (copy_children cs1 sp dp sess links fs p).links
            (copy_children cs1 sp dp sess links fs p).fs p).err,
         (copy_entry node (sp ++ "/" ++ name) (dp ++ "/" ++ name) (some sess)
            (copy_children cs1 sp dp sess links fs p).links
            (copy_children cs1 sp dp sess links fs p).fs p).fs,
         (copy_entry node (sp ++ "/" ++ name) (dp ++ "/" ++ name) (some sess)
            (copy_children cs1 sp dp sess links fs p).links
            (copy_children cs1 sp dp sess links fs p).fs p).links,
         (copy_children cs1 sp dp sess links fs p).tr
           ++ (copy_entry node (sp ++ "/" ++ name) (dp ++ "/" ++ name) (some sess)
                (copy_children cs1 sp dp sess links fs p).links
                (copy_children cs1 sp dp sess links fs p).fs p).tr⟩ := by
  cases cs1 with
  | nil =>
    simp only [copy_children, slAppend] at h1 hbad ⊢
    rw [if_neg hname]
    try dsimp only
    rw [if_neg hbad]
    simp
  | cons hdn hdnode rest =>
    by_cases hskip : hdn = "." ∨ hdn = ".."
    · have hg : ∀ (l : List LinkName) (f : Dst) (tail : SrcList),
          copy_children (.cons hdn hdnode tail) sp dp sess l f p
            = copy_children tail sp dp sess l f p := by
        intro l f tail
        simp only [copy_children]
        rw [if_pos hskip]
      simp only [slAppend]
      rw [hg links fs (slAppend rest (.cons name node cs2))]
      rw [hg links fs rest] at h1 hbad ⊢
      exact c9_first_error_aborts rest name node cs2 sp dp sess links fs p h1 hname hbad
    · by_cases hre : (copy_entry hdnode (sp ++ "/" ++ hdn) (dp ++ "/" ++ hdn)
          (some sess) links fs p).err = 0
      · have hg : ∀ (tail : SrcList),
            copy_children (.cons hdn hdnode tail) sp dp sess links fs p
              = ⟨(copy_children tail sp dp sess
                    (copy_entry hdnode (sp ++ "/" ++ hdn) (dp ++ "/" ++ hdn)
                      (some sess) links fs p).links
                    (copy_entry hdnode (sp ++ "/" ++ hdn) (dp ++ "/" ++ hdn)
                      (some sess) links fs p).fs p).err,
                  (copy_children tail sp dp sess
                    (copy_entry hdnode (sp ++ "/" ++ hdn) (dp ++ "/" ++ hdn)
                      (some sess) links fs p).links
                    (copy_entry hdnode (sp ++ "/" ++ hdn) (dp ++ "/" ++ hdn)
                      (some sess) links fs p).fs p).fs,
                  (copy_children tail sp dp sess
                    (copy_entry hdnode (sp ++ "/" ++ hdn) (dp ++ "/" ++ hdn)
                      (some sess) links fs p).links
                    (copy_entry hdnode (sp ++ "/" ++ hdn) (dp ++ "/" ++ hdn)
                      (some sess) links fs p).fs p).links,
                  (copy_entry hdnode (sp ++ "/" ++ hdn) (dp ++ "/" ++ hdn)
                    (some sess) links fs p).tr
                    ++ (copy_children tail sp dp sess
                          (copy_entry hdnode (sp ++ "/" ++ hdn) (dp ++ "/" ++ hdn)
                            (some sess) links fs p).links
                          (copy_entry hdnode (sp ++ "/" ++ hdn) (dp ++ "/" ++ hdn)
                            (some sess) links fs p).fs p).tr⟩ := by
          intro tail
          simp only [copy_children]
          rw [if_neg hskip]
          try dsimp only
          rw [if_pos hre]
        simp only [slAppend]
        rw [hg (slAppend rest (.cons name node cs2))]
        rw [hg rest] at h1 hbad ⊢
        dsimp only at h1 hbad ⊢
        rw [c9_first_error_aborts rest name node cs2 sp dp sess _ _ p h1 hname hbad]
        simp
      · have hg : copy_children (.cons hdn hdnode rest) sp dp sess links fs p
            = copy_entry hdnode (sp ++ "/" ++ hdn) (dp ++ "/" ++ hdn)
                (some sess) links fs p := by
          simp only [copy_children]
          rw [if_neg hskip]
          try dsimp only
          rw [if_neg hre]
        rw [hg] at h1
        exact absurd h1 hre
termination_by sizeOf cs1

/-- Claim C9, witness: after a successfully copied sibling a, the entry b
whose content read fails aborts with its error; the later sibling c is not
copied and the destination entry of a is kept. -/
theorem c9_first_error_aborts_witness :
    copy_children (slAppend (.cons "a" (.regular stReg [1] false) .nil)
        (.cons "b" (.regular stReg [2] true)
          (.cons "c" (.regular stReg [3] false) .nil))) "s" "d" ("s", "d")
        [] dRoot pRemap
      = ⟨(copy_entry (.regular stReg [2] true) ("s" ++ "/" ++ "b") ("d" ++ "/" ++ "b")
            (some ("s", "d"))
            (copy_children (.cons "a" (.regular stReg [1] false) .nil) "s" "d" ("s", "d")
              [] dRoot pRemap).links
            (copy_children (.cons "a" (.regular stReg [1] false) .nil) "s" "d" ("s", "d")
              [] dRoot pRemap).fs pRemap).err,
         (copy_entry (.regular stReg [2] true) ("s" ++ "/" ++ "b") ("d" ++ "/" ++ "b")
            (some ("s", "d"))
            (copy_children (.cons "a" (.regular stReg [1] false) .nil) "s" "d" ("s", "d")
              [] dRoot pRemap).links
            (copy_children (.cons "a" (.regular stReg [1] false) .nil) "s" "d" ("s", "d")
              [] dRoot pRemap).fs pRemap).fs,
         (copy_entry (.regular stReg [2] true) ("s" ++ "/" ++ "b") ("d" ++ "/" ++ "b")
            (some ("s", "d"))
            (copy_children (.cons "a" (.regular stReg [1] false) .nil) "s" "d" ("s", "d")
              [] dRoot pRemap).links
            (copy_children (.cons "a" (.regular stReg [1] false) .nil) "s" "d" ("s", "d")
              [] dRoot pRemap).fs pRemap).links,
         (copy_children (.cons "a" (.regular stReg [1] false) .nil) "s" "d" ("s", "d")
            [] dRoot pRemap).tr
           ++ (copy_entry (.regular stReg [2] true) ("s" ++ "/" ++ "b") ("d" ++ "/" ++ "b")
                (some ("s", "d"))
                (copy_children (.cons "a" (.regular stReg [1] false) .nil) "s" "d" ("s", "d")
                  [] dRoot pRemap).links
                (copy_children (.cons "a" (.regular stReg [1] false) .nil) "s" "d" ("s", "d")
                  [] dRoot pRemap).fs pRemap).tr⟩ :=
  c9_first_error_aborts (.cons "a" (.regular stReg [1] false) .nil) "b"
    (.regular stReg [2] true) (.cons "c" (.regular stReg [3] false) .nil)
    "s" "d" ("s", "d") [] dRoot pRemap
    (by simp +decide [copy_children, copy_entry, copy_entry_rest, copy_file, check_link,
      fsLookup, chown_ids, remap_owner, stReg, dRoot, statOf, s_isreg, UID_UNSET])
    (by decide)
    (by simp +decide [copy_children, copy_entry, copy_entry_rest, copy_file, check_link,
      fsLookup, chown_ids, remap_owner, stReg, dRoot, statOf, s_isreg, UID_UNSET])

/-! Claim C1: hardlink conservation over one top-level call. -/

theorem path_child_longer (dp n : String) : dp.length < (dp ++ "/" ++ n).length := by
  rw [String.length_append, String.length_append]
  have h1 : ("/" : String).length = 1 := rfl
  omega

theorem path_child_ne_root (dp n : String) : dp ≠ dp ++ "/" ++ n := by
  intro h
  have := path_child_longer dp n
  rw [← h] at this
  omega

theorem path_child_inj {dp m n : String} (h : dp ++ "/" ++ m = dp ++ "/" ++ n) :
    m = n :=
  str_append_left_cancel h

theorem nlink_dec (c : Nat) (h1 : 0 < c) (h3 : c < NLINK_MOD) :
    (c + (NLINK_MOD - 1)) % NLINK_MOD = c - 1 := by
  have heq : c + (NLINK_MOD - 1) = (c - 1) + 1 * NLINK_MOD := by omega
  rw [heq, Nat.add_mul_mod_self_right]
  exact Nat.mod_eq_of_lt (by omega)

/-- A readdir enumeration of hardlinked copies of one inode: regular files
sharing one stat record. -/
def sameKids (st : StatInfo) (content : List Nat) : List String → SrcList
  | [] => .nil
  | n :: ns => .cons n (.regular st content false) (sameKids st content ns)

/-- The destination entries the hardlink strategy creates for a list of
names, newest first. -/
def linkFold (ns : List String) (dp tgt : String) (fs : Dst) : Dst :=
  ns.foldl (fun acc n =>
    (dp ++ "/" ++ n, (⟨.hardlinkD tgt, ⟨0, 0, none, none⟩⟩ : DstEntry)) :: acc) fs

/-- The events copy_file issues on a successful copy. -/
def fileTraceOf (p : CopyParams) (st : StatInfo) (dp : String)
    (content : List Nat) : List Event :=
  ([.fileCreateE dp 384, .chownE dp (chown_ids p st).1 (chown_ids p st).2,
    .chmodE dp (st.st_mode &&& 4095), .aclCopyE dp]
   ++ (if p.reset_selinux then [] else [.xattrCopyE dp]))
  ++ [.writeContentE dp content, .utimensE dp (st.atim, st.mtim)]

/-- One dispatched entry that hits the registry: a regular source whose
(device, inode) is the registered pair is turned into a hardlink to the
recorded destination and the remaining count is decremented. -/
theorem hardlink_entry_step (st : StatInfo) (content : List Nat)
    (sp1 dp1 so dn tgt : String) (c : Nat) (fs : Dst) (p : CopyParams)
    (hfresh : fsLookup fs dp1 = none) (htgt : (fsLookup fs tgt).isSome)
    (h1 : 0 < c) (h2 : c ≠ 1) (h3 : c < NLINK_MOD) :
    copy_entry (.regular st content false) sp1 dp1 (some (so, dn))
        [⟨st.st_dev, st.st_ino, c, tgt⟩] fs p
      = ⟨0, (dp1, ⟨.hardlinkD tgt, ⟨0, 0, none, none⟩⟩) :: fs,
          [⟨st.st_dev, st.st_ino, c - 1, tgt⟩], [.linkCreateE tgt dp1]⟩ := by
  have hs : ¬ (fsLookup fs dp1).isSome = true := by simp [hfresh]
  have hck : check_link [⟨st.st_dev, st.st_ino, c, tgt⟩] so dn sp1 st
      = (some ⟨st.st_dev, st.st_ino, c, tgt⟩, [⟨st.st_dev, st.st_ino, c, tgt⟩]) := by
    simp [check_link]
  have hhl : copy_hardlink dp1 ⟨st.st_dev, st.st_ino, c, tgt⟩
      [⟨st.st_dev, st.st_ino, c, tgt⟩] fs
      = ⟨0, (dp1, ⟨.hardlinkD tgt, ⟨0, 0, none, none⟩⟩) :: fs,
          [⟨st.st_dev, st.st_ino, c - 1, tgt⟩], [.linkCreateE tgt dp1]⟩ := by
    have hd : ¬ ((fsLookup fs (LinkName.mk st.st_dev st.st_ino c tgt).ln_name).isNone
        ∨ (fsLookup fs dp1).isSome) := by
      rintro (hA | hB)
      · rw [Option.isNone_iff_eq_none] at hA
        dsimp only at hA
        rw [hA] at htgt
        exact absurd htgt (by simp)
      · rw [hfresh] at hB
        exact absurd hB (by simp)
    unfold copy_hardlink
    rw [if_neg hd]
    dsimp only
    rw [nlink_dec c h1 h3]
    rw [if_neg (by omega : ¬ (c - 1 = 0))]
    simp
  simp only [copy_entry, copy_entry_rest, statOf]
  try dsimp only
  rw [if_neg hs]
  try dsimp only
  rw [hck]
  try dsimp only
  rw [hhl]
  rfl

/-- One dispatched entry that misses the registry with link count above
one: the registry records the pair with the substituted destination path
and the content is copied in full. -/
theorem file_entry_register_step (st : StatInfo) (content : List Nat)
    (sp1 dp1 so dn : String) (fs : Dst) (p : CopyParams)
    (hfresh : fsLookup fs dp1 = none) (hnl : st.st_nlink ≠ 1) :
    copy_entry (.regular st content false) sp1 dp1 (some (so, dn)) [] fs p
      = ⟨0, (dp1, ⟨.fileD content true,
            ⟨(chown_ids p st).1, (chown_ids p st).2, some (st.st_mode &&& 4095),
             some (st.atim, st.mtim)⟩⟩) :: fs,
          [⟨st.st_dev, st.st_ino, st.st_nlink, dn ++ String.drop sp1 so.length⟩],
          fileTraceOf p st dp1 content⟩ := by
  have hs : ¬ (fsLookup fs dp1).isSome = true := by simp [hfresh]
  have hck : check_link [] so dn sp1 st
      = (none, [⟨st.st_dev, st.st_ino, st.st_nlink, dn ++ String.drop sp1 so.length⟩]) := by
    simp [check_link, hnl]
  have hcf : copy_file st content false dp1
      [⟨st.st_dev, st.st_ino, st.st_nlink, dn ++ String.drop sp1 so.length⟩] fs p
      (st.atim, st.mtim)
      = ⟨0, (dp1, ⟨.fileD content true,
            ⟨(chown_ids p st).1, (chown_ids p st).2, some (st.st_mode &&& 4095),
             some (st.atim, st.mtim)⟩⟩) :: fs,
          [⟨st.st_dev, st.st_ino, st.st_nlink, dn ++ String.drop sp1 so.length⟩],
          fileTraceOf p st dp1 content⟩ := by
    unfold copy_file
    rw [if_neg hs]
    simp [fileTraceOf]
  simp only [copy_entry, copy_entry_rest, statOf]
  try dsimp only
  rw [if_neg hs]
  try dsimp only
  rw [hck]
  try dsimp only
  rw [if_neg (by simp [s_isreg] : ¬ s_isreg (SrcNode.regular st content false) = false)]
  try dsimp only
  rw [hcf]
  rfl

/-- Processing the remaining hardlinked entries: each one hits the
registry, is created as a hardlink to the recorded destination and
decrements the remaining count; no removal happens while the count stays
above the number of remaining entries. -/
theorem hardlink_chain (ns : List String) : ∀ (st : StatInfo) (content : List Nat)
    (sp dp tgt : String) (sess : String × String) (c : Nat) (fs : Dst) (p : CopyParams),
    (∀ n ∈ ns, ¬ (n = "." ∨ n = "..")) →
    ns.Nodup →
    (∀ n ∈ ns, fsLookup fs (dp ++ "/" ++ n) = none) →
    (fsLookup fs tgt).isSome →
    ns.length < c → c < NLINK_MOD →
    copy_children (sameKids st content ns) sp dp sess
        [⟨st.st_dev, st.st_ino, c, tgt⟩] fs p
      = ⟨0, linkFold ns dp tgt fs,
          [⟨st.st_dev, st.st_ino, c - ns.length, tgt⟩],
          ns.map (fun n => .linkCreateE tgt (dp ++ "/" ++ n))⟩ := by
  induction ns with
  | nil =>
    intro st content sp dp tgt sess c fs p hnames hnd hfresh htgt hlen hc
    simp [sameKids, copy_children, linkFold]
  | cons n ns ih =>
    intro st content sp dp tgt sess c fs p hnames hnd hfresh htgt hlen hc
    obtain ⟨so, dn⟩ := sess
    have hstep := hardlink_entry_step st content (sp ++ "/" ++ n) (dp ++ "/" ++ n)
      so dn tgt c fs p (hfresh n (by simp)) htgt
      (by simp at hlen; omega) (by simp at hlen; omega) hc
    have hg : copy_children (sameKids st content (n :: ns)) sp dp (so, dn)
        [⟨st.st_dev, st.st_ino, c, tgt⟩] fs p
        = ⟨(copy_children (sameKids st content ns) sp dp (so, dn)
              [⟨st.st_dev, st.st_ino, c - 1, tgt⟩]
              ((dp ++ "/" ++ n, ⟨.hardlinkD tgt, ⟨0, 0, none, none⟩⟩) :: fs) p).err,
            (copy_children (sameKids st content ns) sp dp (so, dn)
              [⟨st.st_dev, st.st_ino, c - 1, tgt⟩]
              ((dp ++ "/" ++ n, ⟨.hardlinkD tgt, ⟨0, 0, none, none⟩⟩) :: fs) p).fs,
            (copy_children (sameKids st content ns) sp dp (so, dn)
              [⟨st.st_dev, st.st_ino, c - 1, tgt⟩]
              ((dp ++ "/" ++ n, ⟨.hardlinkD tgt, ⟨0, 0, none, none⟩⟩) :: fs) p).links,
            [Event.linkCreateE tgt (dp ++ "/" ++ n)]
              ++ (copy_children (sameKids st content ns) sp dp (so, dn)
                    [⟨st.st_dev, st.st_ino, c - 1, tgt⟩]
                    ((dp ++ "/" ++ n, ⟨.hardlinkD tgt, ⟨0, 0, none, none⟩⟩) :: fs) p).tr⟩ := by
      simp only [sameKids, copy_children]
      rw [if_neg (hnames n (by simp))]
      try dsimp only
      rw [hstep]
      try dsimp only
      rw [if_pos rfl]
    rw [hg]
    rw [ih st content sp dp tgt (so, dn) (c - 1)
      ((dp ++ "/" ++ n, ⟨.hardlinkD tgt, ⟨0, 0, none, none⟩⟩) :: fs) p
      (fun m hm => hnames m (by simp [hm]))
      (List.Nodup.of_cons hnd)
      (fun m hm => by
        have hne : dp ++ "/" ++ n ≠ dp ++ "/" ++ m := by
          intro heq
          have := path_child_inj heq
          subst this
          exact (List.nodup_cons.mp hnd).1 hm
        rw [fsLookup_cons_ne hne]
        exact hfresh m (by simp [hm]))
      (fsLookup_cons_isSome htgt _ _)
      (by simp at hlen; omega)
      (by omega)]
    have hcount : c - 1 - ns.length = c - (n :: ns).length := by
      simp
      omega
    rw [hcount]
    simp [linkFold]

/-- Looking up a path outside the linked names falls through linkFold. -/
theorem linkFold_lookup_other (ns : List String) (dp tgt q : String) (fs : Dst)
    (h : ∀ n ∈ ns, q ≠ dp ++ "/" ++ n) :
    fsLookup (linkFold ns dp tgt fs) q = fsLookup fs q := by
  induction ns generalizing fs with
  | nil => rfl
  | cons n ns ih =>
    show fsLookup (linkFold ns dp tgt _) q = _
    rw [ih _ (fun m hm => h m (by simp [hm]))]
    exact fsLookup_cons_ne (fun heq => h n (by simp) heq.symm) _ _

/-- Looking up a linked name in linkFold yields the hardlink entry. -/
theorem linkFold_lookup_mem (ns : List String) (dp tgt : String) :
    ∀ (fs : Dst), ns.Nodup →
    ∀ n ∈ ns, fsLookup (linkFold ns dp tgt fs) (dp ++ "/" ++ n)
      = some ⟨.hardlinkD tgt, ⟨0, 0, none, none⟩⟩ := by
  induction ns with
  | nil => intro fs hnd n hn; simp at hn
  | cons m ns ih =>
    intro fs hnd n hn
    show fsLookup (linkFold ns dp tgt _) (dp ++ "/" ++ n) = _
    rcases List.mem_cons.mp hn with rfl | hn2
    · rw [linkFold_lookup_other ns dp tgt _ _ (fun k hk heq => by
        have hk2 := path_child_inj heq
        subst hk2
        exact (List.nodup_cons.mp hnd).1 hk)]
      exact fsLookup_cons_self _ _ _
    · exact ih _ (List.Nodup.of_cons hnd) n hn2

/-- Claim C1, counterexample: two entries a, b sharing (device 7, inode 9)
with link count 2, processed in one top-level copy_tree call.  Exactly one
(a) is content-copied and b becomes a hardlink to the destination recorded
for a — but after both have been processed the registry still holds the
cell, with remaining count 1, not zero entries: the count was registered
as st_nlink = 2 and decremented only once (for b), so it never reaches
zero and the cell is never removed. -/
theorem c1_registry_not_empty_cex :
    (copy_tree (.dir stDirW (.cons "a" (.regular stHl [1, 2] false)
        (.cons "b" (.regular stHl [1, 2] false) .nil))) "s" "d" false false
        UID_UNSET 1001 UID_UNSET 1001 [] dRoot).links
      = [⟨7, 9, 1, "d/a"⟩]
    ∧ ((fsLookup (copy_tree (.dir stDirW (.cons "a" (.regular stHl [1, 2] false)
        (.cons "b" (.regular stHl [1, 2] false) .nil))) "s" "d" false false
        UID_UNSET 1001 UID_UNSET 1001 [] dRoot).fs "d/b").map (fun e => e.kind)
      = some (.hardlinkD "d/a"))
    ∧ ((fsLookup (copy_tree (.dir stDirW (.cons "a" (.regular stHl [1, 2] false)
        (.cons "b" (.regular stHl [1, 2] false) .nil))) "s" "d" false false
        UID_UNSET 1001 UID_UNSET 1001 [] dRoot).fs "d/a").map (fun e => e.kind)
      = some (.fileD [1, 2] true))
    ∧ (copy_tree (.dir stDirW (.cons "a" (.regular stHl [1, 2] false)
        (.cons "b" (.regular stHl [1, 2] false) .nil))) "s" "d" false false
        UID_UNSET 1001 UID_UNSET 1001 [] dRoot).err = 0 := by
  refine ⟨?_, ?_, ?_, ?_⟩ <;>
    simp +decide [copy_tree, copy_tree_impl, copy_children, copy_entry, copy_entry_rest,
      copy_dir, copy_file, copy_hardlink, check_link, remove_link, fsLookup, dstIsDir,
      fsSetTimes, chown_ids, remap_owner, stDirW, stHl, dRoot, UID_UNSET, NLINK_MOD,
      statOf, s_isreg]

/-- Claim C1 (amended): for N entries (N at least 2) sharing one (device,
inode) with link count N, processed in one top-level copy_tree call,
exactly one (the first) is content-copied and the remaining N-1 are
created as hardlinks to the destination path recorded for the first one;
but once all N have been processed the registry holds exactly the one
cell for that (device, inode) with remaining count 1 — not zero entries.
The count is registered as N and decremented only on each of the N-1
hardlink creations, so it never reaches zero and the cell is never
removed (removal does happen exactly when a decrement reaches zero, which
would require N decrements). -/
theorem c1_hardlink_conservation_amended (ns : List String) (st : StatInfo)
    (content : List Nat) (rst : StatInfo) (rs : Bool) (ou nu og ng : Nat)
    (hnames : ∀ n ∈ ns, ¬ (n = "." ∨ n = ".."))
    (hnd : ns.Nodup) (hh0 : "h0" ∉ ns) (hne : ns ≠ [])
    (hnl : st.st_nlink = ns.length + 1) (hM : st.st_nlink < NLINK_MOD) :
    copy_tree (.dir rst (sameKids st content ("h0" :: ns))) "s" "d" false rs
        ou nu og ng [] dRoot
      = ⟨0,
          linkFold ns "d" ("d" ++ "/" ++ "h0")
            (("d" ++ "/" ++ "h0",
              ⟨.fileD content true,
               ⟨(chown_ids ⟨rs, ou, nu, og, ng⟩ st).1,
                (chown_ids ⟨rs, ou, nu, og, ng⟩ st).2,
                some (st.st_mode &&& 4095), some (st.atim, st.mtim)⟩⟩) :: dRoot),
          [⟨st.st_dev, st.st_ino, 1, "d" ++ "/" ++ "h0"⟩],
          fileTraceOf ⟨rs, ou, nu, og, ng⟩ st ("d" ++ "/" ++ "h0") content
            ++ ns.map (fun n => .linkCreateE ("d" ++ "/" ++ "h0") ("d" ++ "/" ++ n))⟩
    ∧ (∀ n ∈ ns,
        (fsLookup (copy_tree (.dir rst (sameKids st content ("h0" :: ns))) "s" "d"
            false rs ou nu og ng [] dRoot).fs ("d" ++ "/" ++ n)).map (fun e => e.kind)
          = some (.hardlinkD ("d" ++ "/" ++ "h0"))) := by
  have hpos : 0 < ns.length := List.length_pos.mpr hne
  have hnl1 : st.st_nlink ≠ 1 := by omega
  have htg : "d" ++ String.drop ("s" ++ "/" ++ "h0") ("s".length) = "d" ++ "/" ++ "h0" := by
    decide
  have hfirst := file_entry_register_step st content ("s" ++ "/" ++ "h0")
    ("d" ++ "/" ++ "h0") "s" "d" dRoot ⟨rs, ou, nu, og, ng⟩ (by decide) hnl1
  rw [htg] at hfirst
  have hfresh1 : ∀ n ∈ ns,
      fsLookup (("d" ++ "/" ++ "h0",
        (⟨.fileD content true,
          ⟨(chown_ids ⟨rs, ou, nu, og, ng⟩ st).1, (chown_ids ⟨rs, ou, nu, og, ng⟩ st).2,
           some (st.st_mode &&& 4095), some (st.atim, st.mtim)⟩⟩ : DstEntry)) :: dRoot)
        ("d" ++ "/" ++ n) = none := by
    intro n hn
    have hne1 : "d" ++ "/" ++ "h0" ≠ "d" ++ "/" ++ n := by
      intro heq
      have := path_child_inj heq
      subst this
      exact hh0 hn
    rw [fsLookup_cons_ne hne1]
    have hne2 : "d" ≠ "d" ++ "/" ++ n := path_child_ne_root "d" n
    simp only [dRoot]
    rw [fsLookup_cons_ne hne2]
    rfl
  have hchain := hardlink_chain ns st content "s" "d" ("d" ++ "/" ++ "h0") ("s", "d")
    st.st_nlink
    (("d" ++ "/" ++ "h0",
      (⟨.fileD content true,
        ⟨(chown_ids ⟨rs, ou, nu, og, ng⟩ st).1, (chown_ids ⟨rs, ou, nu, og, ng⟩ st).2,
         some (st.st_mode &&& 4095), some (st.atim, st.mtim)⟩⟩ : DstEntry)) :: dRoot)
    ⟨rs, ou, nu, og, ng⟩ hnames hnd hfresh1
    (by rw [fsLookup_cons_self]; rfl) (by omega) hM
  have hrun : copy_tree (.dir rst (sameKids st content ("h0" :: ns))) "s" "d" false rs
      ou nu og ng [] dRoot
      = ⟨0,
          linkFold ns "d" ("d" ++ "/" ++ "h0")
            (("d" ++ "/" ++ "h0",
              ⟨.fileD content true,
               ⟨(chown_ids ⟨rs, ou, nu, og, ng⟩ st).1,
                (chown_ids ⟨rs, ou, nu, og, ng⟩ st).2,
                some (st.st_mode &&& 4095), some (st.atim, st.mtim)⟩⟩) :: dRoot),
          [⟨st.st_dev, st.st_ino, 1, "d" ++ "/" ++ "h0"⟩],
          fileTraceOf ⟨rs, ou, nu, og, ng⟩ st ("d" ++ "/" ++ "h0") content
            ++ ns.map (fun n => .linkCreateE ("d" ++ "/" ++ "h0") ("d" ++ "/" ++ n))⟩ := by
    simp only [copy_tree]
    rw [copy_tree_impl.eq_def]
    dsimp only
    rw [if_pos (by decide : dstIsDir dRoot "d" = true)]
    simp only [sameKids]
    simp only [copy_children]
    rw [if_neg (by decide : ¬ (("h0" : String) = "." ∨ ("h0" : String) = ".."))]
    try dsimp only
    rw [hfirst]
    try dsimp only
    rw [if_pos rfl]
    try dsimp only
    rw [hchain]
    have hcount : st.st_nlink - ns.length = 1 := by omega
    rw [hcount]
    try dsimp only
    try rfl
  refine ⟨hrun, ?_⟩
  intro n hn
  rw [hrun]
  try dsimp only
  rw [linkFold_lookup_mem ns "d" ("d" ++ "/" ++ "h0") _ hnd n hn]
  rfl

/-- Claim C1, witness: three hardlinked entries h0, x, y with link count 3
in one top-level call: h0 is content-copied, x and y are hardlinked to it,
and the registry retains the cell with remaining count 1. -/
theorem c1_hardlink_conservation_amended_witness :
    copy_tree (.dir stDirW (sameKids ⟨7, 9, 3, 100, 100, 420, 0, (1, 2), (3, 4)⟩
        [1, 2] ["h0", "x", "y"])) "s" "d" false false UID_UNSET 1001 UID_UNSET 1001
        [] dRoot
      = ⟨0,
          linkFold ["x", "y"] "d" ("d" ++ "/" ++ "h0")
            (("d" ++ "/" ++ "h0",
              ⟨.fileD [1, 2] true,
               ⟨(chown_ids ⟨false, UID_UNSET, 1001, UID_UNSET, 1001⟩
                   ⟨7, 9, 3, 100, 100, 420, 0, (1, 2), (3, 4)⟩).1,
                (chown_ids ⟨false, UID_UNSET, 1001, UID_UNSET, 1001⟩
                   ⟨7, 9, 3, 100, 100, 420, 0, (1, 2), (3, 4)⟩).2,
                some ((420 : Nat) &&& 4095), some ((1, 2), (3, 4))⟩⟩) :: dRoot),
          [⟨7, 9, 1, "d" ++ "/" ++ "h0"⟩],
          fileTraceOf ⟨false, UID_UNSET, 1001, UID_UNSET, 1001⟩
              ⟨7, 9, 3, 100, 100, 420, 0, (1, 2), (3, 4)⟩ ("d" ++ "/" ++ "h0") [1, 2]
            ++ (["x", "y"].map (fun n => .linkCreateE ("d" ++ "/" ++ "h0") ("d" ++ "/" ++ n)))⟩ :=
  ((c1_hardlink_conservation_amended ["x", "y"] ⟨7, 9, 3, 100, 100, 420, 0, (1, 2), (3, 4)⟩
      [1, 2] stDirW false UID_UNSET 1001 UID_UNSET 1001
      (by decide) (by decide) (by decide) (by decide) (by decide) (by decide)).1)

end Copydir
